import Mathlib

/-! # Opm::UnitSystem

A shallow embedding of `opm/parser/eclipse/Units/UnitSystem.cpp` and the
properties of it that the specification states.

Conventions of the embedding.

* `std::string` is `String`; the characters are reached through `String.data`.
  The delimiters `*` and `/` are ASCII, so splitting the characters and
  splitting the bytes of the UTF-8 text give the same tokens.
* `double` is an arbitrary type `R` carrying the three things the code uses:
  the literal `1.0` (`One R`), `*=` (`Mul R`) and `/` (`Div R`).  No algebraic
  law is assumed of them, so every general theorem holds for IEEE doubles as
  well as for the rationals used in the concrete examples.
* A call that may throw returns `Except Exception _`.  A member function that
  mutates the object and may throw returns the pair of the outcome and the
  object as it is left behind.
* `std::map<std::string, Dimension>` is an association list with the
  operations `find`, `erase`, `insert` and `at` of `std::map`.
-/

namespace Opm

/-! ## Exceptions -/

/-- What a call that does not return normally ends with. -/
inductive Exception where
  /-- The exception `std::invalid_argument`, with the `std::string` it is
  constructed from. -/
  | invalid_argument (what : String)
  /-- The exception `std::out_of_range`, thrown by `std::map::at`. -/
  | out_of_range (what : String)
  /-- Not an exception: `operator[]` of a `std::vector` past its end. -/
  | vector_subscript_out_of_bounds
  deriving DecidableEq, Repr

/-- The C string of a `std::string`, as read through a `const char*`: the
characters before the first NUL. -/
def c_str (text : String) : String :=
  String.mk (text.data.takeWhile (fun c => c != Char.ofNat 0))

/-- The member `what()` of an exception: the C string of the text that the
exception is constructed from. -/
def Exception.what : Exception → String
  | .invalid_argument text => c_str text
  | .out_of_range text => c_str text
  | .vector_subscript_out_of_bounds => ""

/-! ## Dimension -/

/-- The class `Dimension`: a name and a scaling factor to SI. -/
structure Dimension (R : Type) where
  m_name : String
  m_SIfactor : R
  deriving DecidableEq

namespace Dimension

variable {R : Type}

/-- The accessor `Dimension::getName`. -/
def getName (self : Dimension R) : String := self.m_name

/-- The accessor `Dimension::getSIScaling`. -/
def getSIScaling (self : Dimension R) : R := self.m_SIfactor

/-- Modelled from the spec: the whitespace characters (the file Dimension.cpp
is not among the sources); they are the six characters of C `isspace`:
space, tab, line feed, vertical tab, form feed, carriage return. -/
def isspace (c : Char) : Bool :=
  c == ' ' || c == Char.ofNat 9 || c == Char.ofNat 10 || c == Char.ofNat 11
    || c == Char.ofNat 12 || c == Char.ofNat 13

/-- Modelled from the spec: the name grammar of `Dimension` (the file
Dimension.cpp is not among the sources).  A name is rejected when it is empty,
contains whitespace, starts with a digit without being exactly "1", contains
a star or a slash, or starts with a dot. -/
def validName (name : String) : Bool :=
  !name.data.isEmpty
    && !name.data.any isspace
    && (name == "1" || !(name.data.head?.any Char.isDigit))
    && !name.data.any (fun c => c == '*' || c == '/')
    && !(name.data.head? == some '.')

/-- Modelled from the spec: the constructor `Dimension(name, SI_factor)` (the
file Dimension.cpp is not among the sources).  It validates the name against
the grammar and fails with an `std::invalid_argument` naming the rejected
name; the scaling factor is stored as given. -/
def construct (name : String) (SI_factor : R) : Except Exception (Dimension R) :=
  if validName name then
    .ok { m_name := name, m_SIfactor := SI_factor }
  else
    .error (.invalid_argument ("Invalid dimension name: " ++ name))

/-- Modelled from the spec: the factory `Dimension::makeComposite` (the file
Dimension.cpp is not among the sources).  It skips the name grammar and
always succeeds. -/
def makeComposite (name : String) (SI_factor : R) : Dimension R :=
  { m_name := name, m_SIfactor := SI_factor }

end Dimension

/-! ## The containers and the algorithms of the standard library and boost -/

section Containers

variable {R : Type}

/-- The lookup `std::map::find`: the value stored under `key`, if any. -/
def map_find : List (String × Dimension R) → String → Option (Dimension R)
  | [], _ => none
  | (k, d) :: rest, key => if k = key then some d else map_find rest key

/-- The removal `std::map::erase(key)`. -/
def map_erase (m : List (String × Dimension R)) (key : String) :
    List (String × Dimension R) :=
  m.filter (fun entry => entry.1 ≠ key)

/-- The insertion `std::map::insert(pair)`: it does nothing when the key is
already present. -/
def map_insert (m : List (String × Dimension R)) (entry : String × Dimension R) :
    List (String × Dimension R) :=
  if (map_find m entry.1).isSome then m else entry :: m

/-- The checked access `std::map::at(key)`. -/
def map_at (m : List (String × Dimension R)) (key : String) :
    Except Exception (Dimension R) :=
  match map_find m key with
  | some d => .ok d
  | none => .error (.out_of_range "map::at")

/-- The subscript `operator[]` of `std::vector`. -/
def vector_subscript {α : Type} (v : List α) (i : Nat) : Except Exception α :=
  match v[i]? with
  | some x => .ok x
  | none => .error .vector_subscript_out_of_bounds

end Containers

/-- The predicate `boost::is_any_of(set)`. -/
def is_any_of (set : String) (c : Char) : Bool := set.data.contains c

/-- The tokens of `boost::split` on a character sequence, with the default
`token_compress_off`: every delimiter ends a token, adjacent delimiters
give empty tokens, and the empty input gives one empty token. -/
def split_chars (isDelim : Char → Bool) : List Char → List (List Char)
  | [] => [[]]
  | c :: cs =>
    if isDelim c then [] :: split_chars isDelim cs
    else
      match split_chars isDelim cs with
      | [] => [[c]]
      | tok :: toks => (c :: tok) :: toks

/-- The call `boost::split(result, input, pred)`, returning `result`. -/
def boost_split (input : String) (pred : Char → Bool) : List String :=
  (split_chars pred input.data).map String.mk

/-! ## UnitSystem -/

/-- The class `UnitSystem`. -/
structure UnitSystem (R : Type) where
  m_name : String
  m_dimensions : List (String × Dimension R)
  deriving DecidableEq

/-- The constants of one namespace (`Metric::` or `Field::`) of
ConversionFactors.hpp, which is not among the sources. -/
structure ConversionFactors (R : Type) where
  Pressure : R
  Length : R
  Time : R
  Mass : R
  Permeability : R

namespace UnitSystem

variable {R : Type}

/-- The constructor `UnitSystem::UnitSystem(unitSystem)`. -/
def construct (unitSystem : String) : UnitSystem R :=
  { m_name := unitSystem, m_dimensions := [] }

/-- The member `UnitSystem::hasDimension`. -/
def hasDimension (self : UnitSystem R) (dimension : String) : Bool :=
  (map_find self.m_dimensions dimension).isSome

/-- The member `UnitSystem::getDimension`. -/
def getDimension (self : UnitSystem R) (dimension : String) :
    Except Exception (Dimension R) :=
  if self.hasDimension dimension then
    map_at self.m_dimensions dimension
  else
    .error (.invalid_argument ("Dimension: " ++ dimension ++ " not recognized "))

/-- The member `UnitSystem::addDimension`: the outcome, and the system as the
call leaves it (the erasure comes before the construction of the new
`Dimension`, which may throw). -/
def addDimension (self : UnitSystem R) (dimension : String) (SI_factor : R) :
    Except Exception Unit × UnitSystem R :=
  let erased : UnitSystem R :=
    if self.hasDimension dimension then
      { self with m_dimensions := map_erase self.m_dimensions dimension }
    else self
  match Dimension.construct dimension SI_factor with
  | .error e => (.error e, erased)
  | .ok d =>
    (.ok (), { erased with m_dimensions := map_insert erased.m_dimensions (dimension, d) })

/-- The member `UnitSystem::getName`. -/
def getName (self : UnitSystem R) : String := self.m_name

/-- The loop of `UnitSystem::parseFactor` over the tokens still to visit,
with the running value of `SIfactor`. -/
def parseFactor_loop [Mul R] (self : UnitSystem R) : List String → R → Except Exception R
  | [], SIfactor => .ok SIfactor
  | tok :: rest, SIfactor =>
    match self.getDimension tok with
    | .error e => .error e
    | .ok dim => parseFactor_loop self rest (SIfactor * dim.getSIScaling)

/-- The member `UnitSystem::parseFactor`. -/
def parseFactor [One R] [Mul R] (self : UnitSystem R) (dimension : String) :
    Except Exception (Dimension R) :=
  let dimensionList := boost_split dimension (is_any_of "*")
  match parseFactor_loop self dimensionList 1 with
  | .error e => .error e
  | .ok SIfactor => .ok (Dimension.makeComposite dimension SIfactor)

/-- The first block of `UnitSystem::parse`: the value of `haveDivisor`. -/
def parse_haveDivisor (dimension : String) : Except Exception Bool :=
  let divCount := dimension.data.count '/'
  if divCount = 0 then .ok false
  else if divCount = 1 then .ok true
  else .error (.invalid_argument "Dimension string can only have one division sign /")

/-- The member `UnitSystem::parse`. -/
def parse [One R] [Mul R] [Div R] (self : UnitSystem R) (dimension : String) :
    Except Exception (Dimension R) :=
  match parse_haveDivisor dimension with
  | .error e => .error e
  | .ok haveDivisor =>
    if haveDivisor then
      let parts := boost_split dimension (is_any_of "/")
      match vector_subscript parts 0 with
      | .error e => .error e
      | .ok part0 =>
        match self.parseFactor part0 with
        | .error e => .error e
        | .ok dividend =>
          match vector_subscript parts 1 with
          | .error e => .error e
          | .ok part1 =>
            match self.parseFactor part1 with
            | .error e => .error e
            | .ok divisor =>
              .ok (Dimension.makeComposite dimension
                (dividend.getSIScaling / divisor.getSIScaling))
    else
      self.parseFactor dimension

/-- One statement `system->addDimension(dimension, SI_factor)` of a factory:
the system after the call, or the exception that leaves the factory. -/
def addDimension_stmt (self : UnitSystem R) (dimension : String) (SI_factor : R) :
    Except Exception (UnitSystem R) :=
  match self.addDimension dimension SI_factor with
  | (.error e, _) => .error e
  | (.ok _, system) => .ok system

/-- The factory `UnitSystem::newMETRIC`, given the constants of `Metric::`. -/
def newMETRIC [One R] (Metric : ConversionFactors R) : Except Exception (UnitSystem R) := do
  let system : UnitSystem R := construct "Metric"
  let system ← system.addDimension_stmt "1" 1
  let system ← system.addDimension_stmt "P" Metric.Pressure
  let system ← system.addDimension_stmt "L" Metric.Length
  let system ← system.addDimension_stmt "t" Metric.Time
  let system ← system.addDimension_stmt "m" Metric.Mass
  let system ← system.addDimension_stmt "K" Metric.Permeability
  return system

/-- The factory `UnitSystem::newFIELD`, given the constants of `Field::`. -/
def newFIELD [One R] (Field : ConversionFactors R) : Except Exception (UnitSystem R) := do
  let system : UnitSystem R := construct "Field"
  let system ← system.addDimension_stmt "1" 1
  let system ← system.addDimension_stmt "P" Field.Pressure
  let system ← system.addDimension_stmt "L" Field.Length
  let system ← system.addDimension_stmt "t" Field.Time
  let system ← system.addDimension_stmt "m" Field.Mass
  let system ← system.addDimension_stmt "K" Field.Permeability
  return system

end UnitSystem

/-! ## UnitSystemMap -/

/-- Modelled from the spec: the registry `UnitSystemMap` (the files
UnitSystemMap.hpp and UnitSystemMap.cpp are not among the sources): a mapping
from the normalized name of a system to the system. -/
structure UnitSystemMap (R : Type) where
  m_systemMap : List (String × UnitSystem R)

namespace UnitSystemMap

variable {R : Type}

/-- Modelled from the spec: the normalization of the case of a name, by which
names are compared in the registry (UnitSystemMap.cpp is not among the
sources); every letter is replaced by its upper case form. -/
def normalize (name : String) : String := String.mk (name.data.map Char.toUpper)

/-- Modelled from the spec: the entry stored under a normalized name, if any
(UnitSystemMap.cpp is not among the sources). -/
def lookup : List (String × UnitSystem R) → String → Option (UnitSystem R)
  | [], _ => none
  | (k, system) :: rest, key => if k = key then some system else lookup rest key

/-- Modelled from the spec: a registry without systems (UnitSystemMap.cpp is
not among the sources). -/
def empty : UnitSystemMap R := { m_systemMap := [] }

/-- Modelled from the spec: `addSystem(system)` stores the system under its
own name, normalized, and overwrites a prior entry with the same normalized
name (UnitSystemMap.cpp is not among the sources). -/
def addSystem (self : UnitSystemMap R) (system : UnitSystem R) : UnitSystemMap R :=
  { m_systemMap :=
      (normalize system.getName, system) ::
        self.m_systemMap.filter (fun entry => entry.1 ≠ normalize system.getName) }

/-- Modelled from the spec: `hasSystem(name)`, the presence check that
ignores case (UnitSystemMap.cpp is not among the sources). -/
def hasSystem (self : UnitSystemMap R) (name : String) : Bool :=
  (lookup self.m_systemMap (normalize name)).isSome

/-- Modelled from the spec: `getSystem(name)`, the lookup that ignores case
and fails with an `std::invalid_argument` naming the system when it is absent
(UnitSystemMap.cpp is not among the sources). -/
def getSystem (self : UnitSystemMap R) (name : String) : Except Exception (UnitSystem R) :=
  match lookup self.m_systemMap (normalize name) with
  | some system => .ok system
  | none => .error (.invalid_argument ("UnitSystem: " ++ name ++ " not recognized "))

end UnitSystemMap

/-! ## Notions used to state the properties -/

section Notions

variable {R : Type}

/-- The systems obtained from a freshly constructed one by successful calls
of `addDimension`. -/
inductive Reachable : UnitSystem R → Prop where
  | fresh (name : String) : Reachable (UnitSystem.construct name)
  | add (sys : UnitSystem R) (dimension : String) (SI_factor : R) :
      Reachable sys → (sys.addDimension dimension SI_factor).1 = .ok () →
      Reachable (sys.addDimension dimension SI_factor).2

/-- The system in the middle of `addDimension`, after the erasure. -/
def erased (sys : UnitSystem R) (dimension : String) : UnitSystem R :=
  if sys.hasDimension dimension then
    { sys with m_dimensions := map_erase sys.m_dimensions dimension }
  else sys

/-- The system that the six calls of `addDimension` of a factory leave,
from the name of the system and its constants. -/
def populated [One R] (name : String) (c : ConversionFactors R) : UnitSystem R :=
  (((((((UnitSystem.construct name : UnitSystem R).addDimension "1" 1).2.addDimension
    "P" c.Pressure).2.addDimension "L" c.Length).2.addDimension "t" c.Time).2.addDimension
    "m" c.Mass).2.addDimension "K" c.Permeability).2

/-- The message of the exception of `getDimension` for an absent symbol. -/
def notRecognized (symbol : String) : Exception :=
  .invalid_argument ("Dimension: " ++ symbol ++ " not recognized ")

/-- The exception of `parse` for an expression with several division signs. -/
def grammarError : Exception :=
  .invalid_argument "Dimension string can only have one division sign /"

/-- The symbols of one factor: the pieces between the stars. -/
def symbolsOf (factor : String) : List String :=
  boost_split factor (fun c => c == '*')

/-- The product `1.0 * s₁ * s₂ * ...` of the scalings of a list of
dimensions, multiplied from left to right. -/
def scalingProduct [One R] [Mul R] (dims : List (Dimension R)) : R :=
  dims.foldl (fun acc d => acc * d.getSIScaling) 1

/-- All tokens of an expression: split on the slash, then on the star. -/
def tokensOf (expression : String) : List String :=
  (boost_split expression (fun c => c == '/')).flatMap symbolsOf

/-- The text `what` of an exception carries the token: the characters of the
token stand, in order and without a gap, somewhere in the text. -/
def carries (what token : String) : Prop := token.data <:+: what.data

/-- Two names are equal up to the case of their letters: they have the same
length and at each place the two characters have the same upper case form. -/
def sameUpToCase (a b : String) : Prop :=
  List.Forall₂ (fun x y => x.toUpper = y.toUpper) a.data b.data

/-- The registry after `addSystem` has been called, from the empty registry,
with each system of a list in turn. -/
def registryOf (systems : List (UnitSystem R)) : UnitSystemMap R :=
  systems.foldl UnitSystemMap.addSystem UnitSystemMap.empty

end Notions

/-! ## Concrete systems for the examples -/

/-- An empty system named "Metric". -/
def emptyMetric : UnitSystem ℚ := UnitSystem.construct "Metric"

/-- The system of the test of `addDimension`: `L = 1`, `t = 86400`. -/
def systemDay : UnitSystem ℚ :=
  ((emptyMetric.addDimension "L" 1).2.addDimension "t" 86400).2

/-- A system whose time has the scaling zero: `L = 3.0`, `t = 0.0`. -/
def systemZero : UnitSystem ℚ :=
  ((emptyMetric.addDimension "L" 3).2.addDimension "t" 0).2

/-- Sample values for the constants of a unit system. -/
def sampleFactors : ConversionFactors ℚ :=
  { Pressure := 100000, Length := 1, Time := 86400, Mass := 1, Permeability := 1 }

/-- The registry of the test: the systems named "Metric" and "Field". -/
def sampleRegistry : UnitSystemMap ℚ :=
  (UnitSystemMap.empty.addSystem (populated "Metric" sampleFactors)).addSystem
    (populated "Field" sampleFactors)

/-- A symbol with a NUL character in it: `a`, NUL, `b`. -/
def nulSymbol : String := String.mk ['a', Char.ofNat 0, 'b']

/-- An empty system named "METRIC". -/
def emptyUpper : UnitSystem ℚ := UnitSystem.construct "METRIC"

/-- The registry after the registration of the empty system named "Metric"
and then of the empty system named "METRIC". -/
def clashRegistry : UnitSystemMap ℚ :=
  (UnitSystemMap.empty.addSystem emptyMetric).addSystem emptyUpper

/-- The system of the parse test: `L = 3.0`, `t = 9.0`. -/
def systemLt : UnitSystem ℚ :=
  ((emptyMetric.addDimension "L" 3).2.addDimension "t" 9).2


/-! ## Lemmas on the splitting of strings -/

section SplitLemmas

theorem is_any_of_star : is_any_of "*" = fun c => c == '*' := by
  funext c
  simp [is_any_of, List.contains, List.elem]
  cases c == '*' <;> rfl

theorem is_any_of_slash : is_any_of "/" = fun c => c == '/' := by
  funext c
  simp [is_any_of, List.contains, List.elem]
  cases c == '/' <;> rfl

theorem split_chars_ne_nil (p : Char → Bool) (l : List Char) : split_chars p l ≠ [] := by
  cases l with
  | nil => simp [split_chars]
  | cons c cs =>
    unfold split_chars
    split
    · simp
    · split <;> simp

theorem split_chars_no_delim (p : Char → Bool) (l : List Char)
    (h : ∀ c ∈ l, p c = false) : split_chars p l = [l] := by
  induction l with
  | nil => rfl
  | cons c cs ih =>
    have hc : p c = false := h c (List.mem_cons_self _ _)
    have hcs : split_chars p cs = [cs] := ih (fun x hx => h x (List.mem_cons_of_mem _ hx))
    simp [split_chars, hc, hcs]

theorem split_chars_append_delim (p : Char → Bool) (a b : List Char) (d : Char)
    (ha : ∀ c ∈ a, p c = false) (hd : p d = true) :
    split_chars p (a ++ d :: b) = a :: split_chars p b := by
  induction a with
  | nil => simp [split_chars, hd]
  | cons c cs ih =>
    have hc : p c = false := ha c (List.mem_cons_self _ _)
    have hcs := ih (fun x hx => ha x (List.mem_cons_of_mem _ hx))
    simp [split_chars, hc, hcs]

theorem count_one_decompose (d : Char) (l : List Char) (h : l.count d = 1) :
    ∃ a b, l = a ++ d :: b ∧ d ∉ a ∧ d ∉ b := by
  induction l with
  | nil => simp at h
  | cons c cs ih =>
    by_cases hcd : c = d
    · subst hcd
      refine ⟨[], cs, rfl, by simp, ?_⟩
      rw [List.count_cons_self] at h
      exact List.count_eq_zero.mp (by omega)
    · rw [List.count_cons_of_ne (Ne.symm hcd)] at h
      obtain ⟨a, b, hl, ha, hb⟩ := ih h
      refine ⟨c :: a, b, by simp [hl], ?_, hb⟩
      simp only [List.mem_cons, not_or]
      exact ⟨fun hdc => hcd hdc.symm, ha⟩

theorem split_chars_slash_one (l : List Char) (h : l.count '/' = 1) :
    ∃ a b, l = a ++ '/' :: b ∧ '/' ∉ a ∧ '/' ∉ b ∧
      split_chars (fun c => c == '/') l = [a, b] := by
  obtain ⟨a, b, hl, ha, hb⟩ := count_one_decompose '/' l h
  refine ⟨a, b, hl, ha, hb, ?_⟩
  have hna : ∀ c ∈ a, (fun c => c == '/') c = false := by
    intro c hc
    simp only [beq_eq_false_iff_ne, ne_eq]
    rintro rfl
    exact ha hc
  have hnb : ∀ c ∈ b, (fun c => c == '/') c = false := by
    intro c hc
    simp only [beq_eq_false_iff_ne, ne_eq]
    rintro rfl
    exact hb hc
  rw [hl, split_chars_append_delim _ a b '/' hna (by simp), split_chars_no_delim _ b hnb]

end SplitLemmas

/-! ## Lemmas on lookup and on the two parsing functions -/

section ParseLemmas

variable {R : Type}

theorem getDimension_of_has (sys : UnitSystem R) (symbol : String)
    (h : sys.hasDimension symbol = true) :
    ∃ d, map_find sys.m_dimensions symbol = some d ∧ sys.getDimension symbol = .ok d := by
  unfold UnitSystem.hasDimension at h
  obtain ⟨d, hd⟩ := Option.isSome_iff_exists.mp h
  refine ⟨d, hd, ?_⟩
  simp [UnitSystem.getDimension, UnitSystem.hasDimension, map_at, hd]

theorem getDimension_of_not_has (sys : UnitSystem R) (symbol : String)
    (h : sys.hasDimension symbol = false) :
    sys.getDimension symbol = .error (notRecognized symbol) := by
  simp [UnitSystem.getDimension, h, notRecognized]

theorem getDimension_ok_has (sys : UnitSystem R) (symbol : String) (d : Dimension R)
    (h : sys.getDimension symbol = .ok d) : sys.hasDimension symbol = true := by
  cases hh : sys.hasDimension symbol with
  | true => rfl
  | false => rw [getDimension_of_not_has sys symbol hh] at h; cases h

theorem parseFactor_loop_ok [Mul R] (sys : UnitSystem R) (toks : List String) (acc r : R)
    (h : sys.parseFactor_loop toks acc = .ok r) :
    ∃ ds : List (Dimension R), toks.map sys.getDimension = ds.map .ok ∧
      r = ds.foldl (fun a d => a * d.getSIScaling) acc := by
  induction toks generalizing acc with
  | nil =>
    simp only [UnitSystem.parseFactor_loop, Except.ok.injEq] at h
    exact ⟨[], rfl, h.symm⟩
  | cons tok rest ih =>
    unfold UnitSystem.parseFactor_loop at h
    cases hg : sys.getDimension tok with
    | error e => rw [hg] at h; cases h
    | ok dim =>
      rw [hg] at h
      obtain ⟨ds, hds, hr⟩ := ih _ h
      exact ⟨dim :: ds, by simp [hg, hds], by simpa using hr⟩

theorem parseFactor_loop_of_all [Mul R] (sys : UnitSystem R) (toks : List String) (acc : R)
    (h : ∀ tok ∈ toks, sys.hasDimension tok = true) :
    ∃ r, sys.parseFactor_loop toks acc = .ok r := by
  induction toks generalizing acc with
  | nil => exact ⟨acc, rfl⟩
  | cons tok rest ih =>
    obtain ⟨d, _, hd⟩ := getDimension_of_has sys tok (h tok (List.mem_cons_self _ _))
    obtain ⟨r, hr⟩ := ih (acc * d.getSIScaling) (fun t ht => h t (List.mem_cons_of_mem _ ht))
    exact ⟨r, by simp [UnitSystem.parseFactor_loop, hd, hr]⟩

theorem parseFactor_loop_first_absent [Mul R] (sys : UnitSystem R)
    (pre : List String) (tok : String) (post : List String) (acc : R)
    (hpre : ∀ t ∈ pre, sys.hasDimension t = true) (htok : sys.hasDimension tok = false) :
    sys.parseFactor_loop (pre ++ tok :: post) acc = .error (notRecognized tok) := by
  induction pre generalizing acc with
  | nil => simp [UnitSystem.parseFactor_loop, getDimension_of_not_has sys tok htok]
  | cons t ts ih =>
    obtain ⟨d, _, hd⟩ := getDimension_of_has sys t (hpre t (List.mem_cons_self _ _))
    have := ih (acc * d.getSIScaling) (fun x hx => hpre x (List.mem_cons_of_mem _ hx))
    simp [UnitSystem.parseFactor_loop, hd, this]

theorem exists_first_absent (sys : UnitSystem R) (toks : List String)
    (h : ∃ t ∈ toks, sys.hasDimension t = false) :
    ∃ pre tok post, toks = pre ++ tok :: post ∧
      (∀ t ∈ pre, sys.hasDimension t = true) ∧ sys.hasDimension tok = false := by
  induction toks with
  | nil => obtain ⟨t, ht, _⟩ := h; cases ht
  | cons x xs ih =>
    cases hx : sys.hasDimension x with
    | false => exact ⟨[], x, xs, rfl, by simp, hx⟩
    | true =>
      obtain ⟨t, ht, hth⟩ := h
      have hmem : t ∈ xs := by
        rcases List.mem_cons.mp ht with rfl | hmem
        · rw [hx] at hth; cases hth
        · exact hmem
      obtain ⟨pre, tok, post, hxs, hpre, htok⟩ := ih ⟨t, hmem, hth⟩
      refine ⟨x :: pre, tok, post, by simp [hxs], ?_, htok⟩
      intro y hy
      rcases List.mem_cons.mp hy with rfl | hy
      · exact hx
      · exact hpre y hy

theorem boost_split_star (factor : String) :
    boost_split factor (is_any_of "*") = symbolsOf factor := by
  rw [is_any_of_star]; rfl

theorem parseFactor_ok [One R] [Mul R] (sys : UnitSystem R) (factor : String)
    (d : Dimension R) (h : sys.parseFactor factor = .ok d) :
    d.getName = factor ∧ ∃ ds : List (Dimension R),
      (symbolsOf factor).map sys.getDimension = ds.map .ok ∧
      d.getSIScaling = scalingProduct ds := by
  unfold UnitSystem.parseFactor at h
  simp only [boost_split_star] at h
  cases hl : sys.parseFactor_loop (symbolsOf factor) 1 with
  | error e => rw [hl] at h; cases h
  | ok r =>
    rw [hl] at h
    obtain ⟨ds, hds, hr⟩ := parseFactor_loop_ok sys _ _ _ hl
    simp only [Except.ok.injEq] at h
    subst h
    exact ⟨rfl, ds, hds, hr⟩

theorem parseFactor_of_all [One R] [Mul R] (sys : UnitSystem R) (factor : String)
    (h : ∀ tok ∈ symbolsOf factor, sys.hasDimension tok = true) :
    ∃ d, sys.parseFactor factor = .ok d := by
  obtain ⟨r, hr⟩ := parseFactor_loop_of_all sys (symbolsOf factor) 1 h
  exact ⟨Dimension.makeComposite factor r, by
    simp [UnitSystem.parseFactor, boost_split_star, hr]⟩

theorem parseFactor_of_absent [One R] [Mul R] (sys : UnitSystem R) (factor : String)
    (h : ∃ t ∈ symbolsOf factor, sys.hasDimension t = false) :
    ∃ pre tok post, symbolsOf factor = pre ++ tok :: post ∧
      (∀ t ∈ pre, sys.hasDimension t = true) ∧ sys.hasDimension tok = false ∧
      sys.parseFactor factor = .error (notRecognized tok) := by
  obtain ⟨pre, tok, post, hs, hpre, htok⟩ := exists_first_absent sys _ h
  refine ⟨pre, tok, post, hs, hpre, htok, ?_⟩
  simp [UnitSystem.parseFactor, boost_split_star, hs,
    parseFactor_loop_first_absent sys pre tok post 1 hpre htok]

theorem parse_no_division [One R] [Mul R] [Div R] (sys : UnitSystem R) (expression : String)
    (h : expression.data.count '/' = 0) :
    sys.parse expression = sys.parseFactor expression := by
  simp [UnitSystem.parse, UnitSystem.parse_haveDivisor, h]

theorem parse_many_divisions [One R] [Mul R] [Div R] (sys : UnitSystem R)
    (expression : String) (h : 2 ≤ expression.data.count '/') :
    sys.parse expression = .error grammarError := by
  have h0 : expression.data.count '/' ≠ 0 := by omega
  have h1 : expression.data.count '/' ≠ 1 := by omega
  simp [UnitSystem.parse, UnitSystem.parse_haveDivisor, h0, h1, grammarError]

theorem parse_one_division [One R] [Mul R] [Div R] (sys : UnitSystem R) (expression : String)
    (h : expression.data.count '/' = 1) :
    ∃ left right : String, expression = left ++ "/" ++ right ∧
      '/' ∉ left.data ∧ '/' ∉ right.data ∧
      boost_split expression (fun c => c == '/') = [left, right] ∧
      sys.parse expression =
        match sys.parseFactor left with
        | .error e => .error e
        | .ok dividend =>
          match sys.parseFactor right with
          | .error e => .error e
          | .ok divisor =>
            .ok (Dimension.makeComposite expression
              (dividend.getSIScaling / divisor.getSIScaling)) := by
  obtain ⟨a, b, hl, ha, hb, hsplit⟩ := split_chars_slash_one expression.data h
  have hbs : boost_split expression (fun c => c == '/') = [String.mk a, String.mk b] := by
    simp [boost_split, hsplit]
  refine ⟨String.mk a, String.mk b, ?_, ha, hb, hbs, ?_⟩
  · apply String.ext
    simp [hl]
  · simp only [UnitSystem.parse, UnitSystem.parse_haveDivisor, h, is_any_of_slash, hbs]
    simp [vector_subscript]

end ParseLemmas

/-! ## The properties of `parse` -/

section ParseProperties

variable {R : Type}

/-- C1: when the expression contains exactly one slash and `parse` succeeds,
the result is named by the whole expression, and its scaling is the product
of the scalings of the symbols left of the slash divided by the product of
the scalings of the symbols right of it. -/
theorem parse_single_division_result [One R] [Mul R] [Div R] (sys : UnitSystem R)
    (expression : String) (d : Dimension R)
    (hdiv : expression.data.count '/' = 1) (hok : sys.parse expression = .ok d) :
    d.getName = expression ∧
    ∃ left right : String, expression = left ++ "/" ++ right ∧
      '/' ∉ left.data ∧ '/' ∉ right.data ∧
      ∃ ls rs : List (Dimension R),
        (symbolsOf left).map sys.getDimension = ls.map .ok ∧
        (symbolsOf right).map sys.getDimension = rs.map .ok ∧
        d.getSIScaling = scalingProduct ls / scalingProduct rs := by
  obtain ⟨left, right, he, hl, hr, _, hparse⟩ := parse_one_division sys expression hdiv
  rw [hparse] at hok
  cases hdl : sys.parseFactor left with
  | error e => rw [hdl] at hok; cases hok
  | ok dividend =>
    cases hdr : sys.parseFactor right with
    | error e => rw [hdl, hdr] at hok; cases hok
    | ok divisor =>
      rw [hdl, hdr] at hok
      simp only [Except.ok.injEq] at hok
      obtain ⟨_, ls, hls, hsl⟩ := parseFactor_ok sys left dividend hdl
      obtain ⟨_, rs, hrs, hsr⟩ := parseFactor_ok sys right divisor hdr
      subst hok
      refine ⟨rfl, left, right, he, hl, hr, ls, rs, hls, hrs, ?_⟩
      simp [Dimension.makeComposite, Dimension.getSIScaling, ← hsl, ← hsr]

theorem systemLt_parse :
    systemLt.parse "L*L*L/t" = .ok { m_name := "L*L*L/t", m_SIfactor := 3 } := by
  have h : systemLt.parse "L*L*L/t"
      = .ok { m_name := "L*L*L/t", m_SIfactor := 1 * 3 * 3 * 3 / (1 * 9) } := rfl
  rw [h]
  norm_num

/-- C1, on the system with `L = 3.0` and `t = 9.0`: the expression `L*L*L/t`
parses to the dimension of that name with scaling `3.0`. -/
theorem parse_single_division_result_witness :
    ("L*L*L/t".data.count '/' = 1 ∧
      systemLt.parse "L*L*L/t" = .ok { m_name := "L*L*L/t", m_SIfactor := 3 }) ∧
    (Dimension.getName ({ m_name := "L*L*L/t", m_SIfactor := 3 } : Dimension ℚ) = "L*L*L/t" ∧
      ∃ left right : String, "L*L*L/t" = left ++ "/" ++ right ∧
        '/' ∉ left.data ∧ '/' ∉ right.data ∧
        ∃ ls rs : List (Dimension ℚ),
          (symbolsOf left).map systemLt.getDimension = ls.map .ok ∧
          (symbolsOf right).map systemLt.getDimension = rs.map .ok ∧
          Dimension.getSIScaling ({ m_name := "L*L*L/t", m_SIfactor := 3 } : Dimension ℚ)
            = scalingProduct ls / scalingProduct rs) :=
  ⟨⟨by decide, systemLt_parse⟩,
   parse_single_division_result systemLt "L*L*L/t" _ (by decide) systemLt_parse⟩

/-- C2: on an expression without a slash `parse` is `parseFactor`; a result
is named by the whole expression and scaled by `1.0` times the scalings of
its symbols from left to right; it exists when every symbol is present; and
when some symbol is absent the call ends with the error of `getDimension`
for an absent symbol. -/
theorem parse_without_division [One R] [Mul R] [Div R] (sys : UnitSystem R)
    (expression : String) (hdiv : expression.data.count '/' = 0) :
    sys.parse expression = sys.parseFactor expression ∧
    (∀ d, sys.parse expression = .ok d →
      d.getName = expression ∧
      ∃ ds : List (Dimension R),
        (symbolsOf expression).map sys.getDimension = ds.map .ok ∧
        d.getSIScaling = ds.foldl (fun acc dim => acc * dim.getSIScaling) 1) ∧
    ((∀ tok ∈ symbolsOf expression, sys.hasDimension tok = true) →
      ∃ d, sys.parse expression = .ok d) ∧
    ((∃ tok ∈ symbolsOf expression, sys.hasDimension tok = false) →
      ∃ tok ∈ symbolsOf expression, sys.hasDimension tok = false ∧
        sys.getDimension tok =
          .error (.invalid_argument ("Dimension: " ++ tok ++ " not recognized ")) ∧
        sys.parse expression =
          .error (.invalid_argument ("Dimension: " ++ tok ++ " not recognized "))) := by
  have hp := parse_no_division sys expression hdiv
  refine ⟨hp, ?_, ?_, ?_⟩
  · intro d hd
    rw [hp] at hd
    exact parseFactor_ok sys expression d hd
  · intro hall
    rw [hp]
    exact parseFactor_of_all sys expression hall
  · intro habs
    obtain ⟨pre, tok, post, hs, _, htok, herr⟩ := parseFactor_of_absent sys expression habs
    refine ⟨tok, by simp [hs], htok, getDimension_of_not_has sys tok htok, ?_⟩
    rw [hp, herr]
    rfl

theorem systemLt_parse_product :
    systemLt.parse "L*L" = .ok { m_name := "L*L", m_SIfactor := 9 } := by
  have h : systemLt.parse "L*L" = .ok { m_name := "L*L", m_SIfactor := 1 * 3 * 3 } := rfl
  rw [h]
  norm_num

/-- C2, on the system with `L = 3.0` and `t = 9.0`: `L*L` parses like
`parseFactor` to the scaling `9.0`, and `L*m` ends with the error of the
absent symbol `m`. -/
theorem parse_without_division_witness :
    "L*L".data.count '/' = 0 ∧
    systemLt.parse "L*L" = systemLt.parseFactor "L*L" ∧
    systemLt.parse "L*L" = .ok { m_name := "L*L", m_SIfactor := 9 } ∧
    systemLt.parse "L*m" = .error (.invalid_argument "Dimension: m not recognized ") :=
  ⟨by decide, (parse_without_division systemLt "L*L" (by decide)).1,
   systemLt_parse_product, rfl⟩

/-- C3: on an expression with two or more slashes `parse` ends, in every
unit system, with the `std::invalid_argument` of the grammar; the dimensions
of the system play no part in it. -/
theorem parse_several_divisions [One R] [Mul R] [Div R] (sys : UnitSystem R)
    (expression : String) (hdiv : 2 ≤ expression.data.count '/') :
    sys.parse expression =
      .error (.invalid_argument "Dimension string can only have one division sign /") :=
  parse_many_divisions sys expression hdiv

/-- C3, on the system with `L = 3.0` and `t = 9.0`: `L/t/t` ends with the
error of the grammar although each of its symbols is present. -/
theorem parse_several_divisions_witness :
    2 ≤ "L/t/t".data.count '/' ∧
    systemLt.parse "L/t/t" =
      .error (.invalid_argument "Dimension string can only have one division sign /") :=
  ⟨by decide, parse_several_divisions systemLt "L/t/t" (by decide)⟩

/-- C4, refuted as stated: in the empty system named "Metric" the call
`parse("//")` ends with the error of the grammar, which is the error of no
unrecognized symbol. -/
theorem parse_double_slash_not_lookup_error :
    emptyMetric.parse "//" =
      .error (.invalid_argument "Dimension string can only have one division sign /") ∧
    ¬ ∃ tok : String, emptyMetric.parse "//" =
      .error (.invalid_argument ("Dimension: " ++ tok ++ " not recognized ")) := by
  have h : emptyMetric.parse "//" =
      .error (.invalid_argument "Dimension string can only have one division sign /") := rfl
  refine ⟨h, ?_⟩
  rintro ⟨tok, htok⟩
  rw [h] at htok
  simp only [Except.error.injEq, Exception.invalid_argument.injEq] at htok
  have := congrArg (fun s => s.data.take 10) htok
  simp at this

/-- C4, as amended: in every unit system `parse("//")` ends with the error
of the grammar, raised by the count of the division signs before any
splitting or lookup. -/
theorem parse_double_slash_grammar [One R] [Mul R] [Div R] (sys : UnitSystem R) :
    sys.parse "//" =
      .error (.invalid_argument "Dimension string can only have one division sign /") :=
  parse_many_divisions sys "//" (by decide)

end ParseProperties

/-! ## Lemmas on the map of dimensions and on `addDimension` -/

section MapLemmas

variable {R : Type}

theorem map_find_some_mem (m : List (String × Dimension R)) (key : String) (d : Dimension R)
    (h : map_find m key = some d) : (key, d) ∈ m := by
  induction m with
  | nil => simp [map_find] at h
  | cons entry rest ih =>
    obtain ⟨k, v⟩ := entry
    unfold map_find at h
    by_cases hk : k = key
    · simp only [hk, if_true, Option.some.injEq] at h
      simp [hk, h]
    · simp only [hk, if_false] at h
      exact List.mem_cons_of_mem _ (ih h)

theorem map_find_none_of_not_mem (m : List (String × Dimension R)) (key : String)
    (h : ∀ entry ∈ m, entry.1 ≠ key) : map_find m key = none := by
  induction m with
  | nil => rfl
  | cons entry rest ih =>
    obtain ⟨k, v⟩ := entry
    have hk : k ≠ key := h (k, v) (List.mem_cons_self _ _)
    simp only [map_find, hk, if_false]
    exact ih (fun e he => h e (List.mem_cons_of_mem _ he))

theorem map_find_erase_self (m : List (String × Dimension R)) (key : String) :
    map_find (map_erase m key) key = none := by
  apply map_find_none_of_not_mem
  intro entry hentry
  simpa [map_erase] using (List.mem_filter.mp hentry).2

theorem map_find_erase_ne (m : List (String × Dimension R)) (key other : String)
    (h : other ≠ key) : map_find (map_erase m key) other = map_find m other := by
  induction m with
  | nil => rfl
  | cons entry rest ih =>
    obtain ⟨k, v⟩ := entry
    by_cases hk : k = key
    · have hko : k ≠ other := fun hko => h (hko.symm.trans hk)
      have : map_erase ((k, v) :: rest) key = map_erase rest key := by
        simp [map_erase, hk]
      rw [this, ih]
      simp [map_find, hko]
    · have : map_erase ((k, v) :: rest) key = (k, v) :: map_erase rest key := by
        simp [map_erase, hk]
      rw [this]
      simp only [map_find, ih]

theorem map_erase_absent (m : List (String × Dimension R)) (key : String)
    (h : map_find m key = none) : map_erase m key = m := by
  induction m with
  | nil => rfl
  | cons entry rest ih =>
    obtain ⟨k, v⟩ := entry
    unfold map_find at h
    by_cases hk : k = key
    · simp [hk] at h
    · simp only [hk, if_false] at h
      have hrest : List.filter (fun entry => decide (entry.1 ≠ key)) rest = rest := ih h
      unfold map_erase
      rw [List.filter_cons_of_pos (by simpa using hk), hrest]

theorem map_find_insert_self (m : List (String × Dimension R)) (key : String)
    (d : Dimension R) (h : map_find m key = none) :
    map_find (map_insert m (key, d)) key = some d := by
  simp [map_insert, h, map_find]

theorem map_find_insert_ne (m : List (String × Dimension R)) (key other : String)
    (d : Dimension R) (h : other ≠ key) :
    map_find (map_insert m (key, d)) other = map_find m other := by
  unfold map_insert
  split
  · rfl
  · simp [map_find, Ne.symm h]

theorem erased_find_self (sys : UnitSystem R) (dimension : String) :
    map_find (erased sys dimension).m_dimensions dimension = none := by
  unfold erased
  cases h : sys.hasDimension dimension with
  | true => simp [map_find_erase_self]
  | false => simpa [UnitSystem.hasDimension] using h

theorem erased_find_ne (sys : UnitSystem R) (dimension other : String)
    (h : other ≠ dimension) :
    map_find (erased sys dimension).m_dimensions other = map_find sys.m_dimensions other := by
  unfold erased
  cases sys.hasDimension dimension with
  | true => simp [map_find_erase_ne _ _ _ h]
  | false => simp

theorem erased_name (sys : UnitSystem R) (dimension : String) :
    (erased sys dimension).m_name = sys.m_name := by
  unfold erased
  split <;> rfl

theorem addDimension_valid (sys : UnitSystem R) (dimension : String) (SI_factor : R)
    (h : Dimension.validName dimension = true) :
    sys.addDimension dimension SI_factor =
      (.ok (), { erased sys dimension with
        m_dimensions := map_insert (erased sys dimension).m_dimensions
          (dimension, { m_name := dimension, m_SIfactor := SI_factor }) }) := by
  simp [UnitSystem.addDimension, Dimension.construct, h, erased]

theorem addDimension_invalid (sys : UnitSystem R) (dimension : String) (SI_factor : R)
    (h : Dimension.validName dimension = false) :
    sys.addDimension dimension SI_factor =
      (.error (.invalid_argument ("Invalid dimension name: " ++ dimension)),
        erased sys dimension) := by
  simp [UnitSystem.addDimension, Dimension.construct, h, erased]

theorem addDimension_ok_valid (sys : UnitSystem R) (dimension : String) (SI_factor : R)
    (h : (sys.addDimension dimension SI_factor).1 = .ok ()) :
    Dimension.validName dimension = true := by
  cases hv : Dimension.validName dimension with
  | true => rfl
  | false => rw [addDimension_invalid sys dimension SI_factor hv] at h; cases h

theorem addDimension_find_self (sys : UnitSystem R) (dimension : String) (SI_factor : R)
    (h : Dimension.validName dimension = true) :
    map_find (sys.addDimension dimension SI_factor).2.m_dimensions dimension =
      some { m_name := dimension, m_SIfactor := SI_factor } := by
  rw [addDimension_valid sys dimension SI_factor h]
  exact map_find_insert_self _ _ _ (erased_find_self sys dimension)

theorem addDimension_find_ne (sys : UnitSystem R) (dimension other : String) (SI_factor : R)
    (h : other ≠ dimension) :
    map_find (sys.addDimension dimension SI_factor).2.m_dimensions other =
      map_find sys.m_dimensions other := by
  cases hv : Dimension.validName dimension with
  | true =>
    rw [addDimension_valid sys dimension SI_factor hv]
    simp only
    rw [map_find_insert_ne _ _ _ _ h, erased_find_ne sys dimension other h]
  | false =>
    rw [addDimension_invalid sys dimension SI_factor hv]
    exact erased_find_ne sys dimension other h

/-- In a reachable system every stored symbol is a valid name and is the
name of the dimension stored under it. -/
theorem reachable_entries (sys : UnitSystem R) (hr : Reachable sys) (key : String)
    (d : Dimension R) (h : map_find sys.m_dimensions key = some d) :
    Dimension.validName key = true ∧ d.m_name = key := by
  induction hr generalizing key d with
  | fresh name => simp [UnitSystem.construct, map_find] at h
  | add sys dimension SI_factor _ hok ih =>
    have hv := addDimension_ok_valid sys dimension SI_factor hok
    by_cases hk : key = dimension
    · subst hk
      rw [addDimension_find_self sys key SI_factor hv] at h
      simp only [Option.some.injEq] at h
      subst h
      exact ⟨hv, rfl⟩
    · rw [addDimension_find_ne sys dimension key SI_factor hk] at h
      exact ih key d h

theorem reachable_has_valid (sys : UnitSystem R) (hr : Reachable sys) (key : String)
    (h : sys.hasDimension key = true) : Dimension.validName key = true := by
  obtain ⟨d, hd, _⟩ := getDimension_of_has sys key h
  exact (reachable_entries sys hr key d hd).1

theorem tokensOf_no_division (expression : String)
    (h : expression.data.count '/' = 0) : tokensOf expression = symbolsOf expression := by
  have hno : ∀ c ∈ expression.data, (fun c => c == '/') c = false := by
    intro c hc
    simp only [beq_eq_false_iff_ne, ne_eq]
    rintro rfl
    exact (List.count_eq_zero.mp h) hc
  simp [tokensOf, boost_split, split_chars_no_delim _ _ hno]

/-- The error of `parse` on an expression with at most one slash and an
absent token: it names the first absent token in reading order. -/
theorem parse_first_absent [One R] [Mul R] [Div R] (sys : UnitSystem R) (expression : String)
    (hdiv : expression.data.count '/' ≤ 1)
    (h : ∃ t ∈ tokensOf expression, sys.hasDimension t = false) :
    ∃ pre tok post, tokensOf expression = pre ++ tok :: post ∧
      (∀ t ∈ pre, sys.hasDimension t = true) ∧ sys.hasDimension tok = false ∧
      sys.parse expression = .error (notRecognized tok) := by
  rcases Nat.lt_or_ge (expression.data.count '/') 1 with h0 | h1
  · have h0 : expression.data.count '/' = 0 := by omega
    rw [tokensOf_no_division expression h0] at h ⊢
    rw [parse_no_division sys expression h0]
    exact parseFactor_of_absent sys expression h
  · have h1 : expression.data.count '/' = 1 := by omega
    obtain ⟨left, right, _, _, _, hsplit, hparse⟩ := parse_one_division sys expression h1
    have htok : tokensOf expression = symbolsOf left ++ symbolsOf right := by
      simp [tokensOf, hsplit]
    rw [htok] at h ⊢
    rw [hparse]
    by_cases hleft : ∃ t ∈ symbolsOf left, sys.hasDimension t = false
    · obtain ⟨pre, tok, post, hs, hpre, hab, herr⟩ := parseFactor_of_absent sys left hleft
      exact ⟨pre, tok, post ++ symbolsOf right, by simp [hs], hpre, hab, by rw [herr]⟩
    · have hall : ∀ t ∈ symbolsOf left, sys.hasDimension t = true := by
        intro t ht
        cases hh : sys.hasDimension t with
        | true => rfl
        | false => exact absurd ⟨t, ht, hh⟩ hleft
      obtain ⟨dividend, hdividend⟩ := parseFactor_of_all sys left hall
      have hright : ∃ t ∈ symbolsOf right, sys.hasDimension t = false := by
        obtain ⟨t, ht, hh⟩ := h
        rcases List.mem_append.mp ht with hl | hr
        · rw [hall t hl] at hh; cases hh
        · exact ⟨t, hr, hh⟩
      obtain ⟨pre, tok, post, hs, hpre, hab, herr⟩ := parseFactor_of_absent sys right hright
      refine ⟨symbolsOf left ++ pre, tok, post, by simp [hs], ?_, hab, by rw [hdividend, herr]⟩
      intro t ht
      rcases List.mem_append.mp ht with hl | hp
      · exact hall t hl
      · exact hpre t hp

end MapLemmas

/-! ## The properties of the map of dimensions -/

section SystemProperties

variable {R : Type}

/-- C5: after `addDimension(s, f)` with a valid symbol `s` the call has
succeeded, `hasDimension(s)` holds and `getDimension(s)` is the dimension
named `s` with scaling `f`, whatever the system held before. -/
theorem addDimension_replaces (sys : UnitSystem R) (s : String) (f : R)
    (hvalid : Dimension.validName s = true) :
    (sys.addDimension s f).1 = .ok () ∧
    (sys.addDimension s f).2.hasDimension s = true ∧
    (sys.addDimension s f).2.getDimension s = .ok { m_name := s, m_SIfactor := f } ∧
    ((sys.addDimension s f).2.getDimension s).map Dimension.getSIScaling = .ok f := by
  have hfind := addDimension_find_self sys s f hvalid
  have hhas : (sys.addDimension s f).2.hasDimension s = true := by
    simp [UnitSystem.hasDimension, hfind]
  obtain ⟨d, hd, hget⟩ := getDimension_of_has _ s hhas
  rw [hfind] at hd
  simp only [Option.some.injEq] at hd
  subst hd
  refine ⟨?_, hhas, hget, ?_⟩
  · rw [addDimension_valid sys s f hvalid]
  · rw [hget]; rfl

/-- C5, on the test of `addDimension`: after `L = 1`, `t = 86400` and then
`L = 0.3048` the scaling of `L` is `0.3048` and that of `t` is `86400`. -/
theorem addDimension_replaces_witness :
    Dimension.validName "L" = true ∧
    systemDay.getDimension "L" = .ok { m_name := "L", m_SIfactor := 1 } ∧
    (systemDay.addDimension "L" 0.3048).1 = .ok () ∧
    (systemDay.addDimension "L" 0.3048).2.hasDimension "L" = true ∧
    (systemDay.addDimension "L" 0.3048).2.getDimension "L"
      = .ok { m_name := "L", m_SIfactor := 0.3048 } ∧
    (systemDay.addDimension "L" 0.3048).2.getDimension "t"
      = .ok { m_name := "t", m_SIfactor := 86400 } :=
  have h := addDimension_replaces systemDay "L" 0.3048 (by decide)
  ⟨by decide, rfl, h.1, h.2.1, h.2.2.1, rfl⟩

theorem reachable_systemLt : Reachable systemLt :=
  Reachable.add _ "t" 9 (Reachable.add _ "L" 3 (Reachable.fresh "Metric") rfl) rfl

/-- C6: in a system built by successful calls of `addDimension` the empty
symbol is absent, and `parse` of an expression with at most one slash and an
empty token ends with the error of `getDimension` for an absent token. -/
theorem parse_empty_token [One R] [Mul R] [Div R] (sys : UnitSystem R) (hr : Reachable sys)
    (expression : String) (hdiv : expression.data.count '/' ≤ 1)
    (hempty : "" ∈ tokensOf expression) :
    sys.hasDimension "" = false ∧
    ∃ tok ∈ tokensOf expression, sys.hasDimension tok = false ∧
      sys.parse expression =
        .error (.invalid_argument ("Dimension: " ++ tok ++ " not recognized ")) := by
  have hno : sys.hasDimension "" = false := by
    cases hh : sys.hasDimension "" with
    | false => rfl
    | true =>
      have hv := reachable_has_valid sys hr "" hh
      simp [Dimension.validName] at hv
  obtain ⟨pre, tok, post, htoks, _, hab, herr⟩ :=
    parse_first_absent sys expression hdiv ⟨"", hempty, hno⟩
  exact ⟨hno, tok, by simp [htoks], hab, herr⟩

/-- C6, on the system with `L = 3.0` and `t = 9.0`: each of the expressions
"", `L*`, `*L`, `L**L`, `L/`, `/t` ends with the error of the empty symbol. -/
theorem parse_empty_token_witness :
    (Reachable systemLt ∧ "L/".data.count '/' ≤ 1 ∧ "" ∈ tokensOf "L/") ∧
    (systemLt.hasDimension "" = false ∧
      ∃ tok ∈ tokensOf "L/", systemLt.hasDimension tok = false ∧
        systemLt.parse "L/" =
          .error (.invalid_argument ("Dimension: " ++ tok ++ " not recognized "))) ∧
    systemLt.parse "" = .error (.invalid_argument "Dimension:  not recognized ") ∧
    systemLt.parse "L*" = .error (.invalid_argument "Dimension:  not recognized ") ∧
    systemLt.parse "*L" = .error (.invalid_argument "Dimension:  not recognized ") ∧
    systemLt.parse "L**L" = .error (.invalid_argument "Dimension:  not recognized ") ∧
    systemLt.parse "L/" = .error (.invalid_argument "Dimension:  not recognized ") ∧
    systemLt.parse "/t" = .error (.invalid_argument "Dimension:  not recognized ") :=
  ⟨⟨reachable_systemLt, by decide, by decide⟩,
   parse_empty_token systemLt reachable_systemLt "L/" (by decide) (by decide),
   rfl, rfl, rfl, rfl, rfl, rfl⟩

/-- C7: in a system built by successful calls of `addDimension` a token with
a whitespace character is absent, and `parse` of an expression with such a
token fails: with the error of the grammar when there are two or more
slashes, and else with the error of `getDimension` for an absent token. -/
theorem parse_whitespace_token [One R] [Mul R] [Div R] (sys : UnitSystem R)
    (hr : Reachable sys) (expression : String) (tok : String)
    (htok : tok ∈ tokensOf expression) (hws : tok.data.any Dimension.isspace = true) :
    sys.hasDimension tok = false ∧
    ((2 ≤ expression.data.count '/' ∧
        sys.parse expression =
          .error (.invalid_argument "Dimension string can only have one division sign /")) ∨
      (expression.data.count '/' ≤ 1 ∧
        ∃ t ∈ tokensOf expression, sys.hasDimension t = false ∧
          sys.parse expression =
            .error (.invalid_argument ("Dimension: " ++ t ++ " not recognized ")))) := by
  have hno : sys.hasDimension tok = false := by
    cases hh : sys.hasDimension tok with
    | false => rfl
    | true =>
      have hv := reachable_has_valid sys hr tok hh
      simp [Dimension.validName, hws] at hv
  refine ⟨hno, ?_⟩
  rcases Nat.lt_or_ge (expression.data.count '/') 2 with hlt | hge
  · right
    have hdiv : expression.data.count '/' ≤ 1 := by omega
    obtain ⟨pre, t, post, htoks, _, hab, herr⟩ :=
      parse_first_absent sys expression hdiv ⟨tok, htok, hno⟩
    exact ⟨hdiv, t, by simp [htoks], hab, herr⟩
  · left
    exact ⟨hge, parse_many_divisions sys expression hge⟩

/-- C7, on the system with `L = 3.0` and `t = 9.0`: `L * L / t` fails, at
its first token, `L` followed by a space. -/
theorem parse_whitespace_token_witness :
    (Reachable systemLt ∧ "L " ∈ tokensOf "L * L / t" ∧
      "L ".data.any Dimension.isspace = true) ∧
    systemLt.hasDimension "L" = true ∧ systemLt.hasDimension "t" = true ∧
    systemLt.hasDimension "L " = false ∧
    systemLt.parse "L * L / t" = .error (.invalid_argument "Dimension: L  not recognized ") :=
  ⟨⟨reachable_systemLt, by decide, by decide⟩, by decide, by decide,
   (parse_whitespace_token systemLt reachable_systemLt "L * L / t" "L " (by decide)
      (by decide)).1,
   rfl⟩

/-- C8: `getDimension(s)` ends with the error that `s` is not recognized
exactly when `hasDimension(s)` is false, it fails in no other way, and when
`hasDimension(s)` is true it returns the dimension stored under the key
equal to `s`. -/
theorem getDimension_iff_hasDimension (sys : UnitSystem R) (s : String) :
    (sys.getDimension s =
        .error (.invalid_argument ("Dimension: " ++ s ++ " not recognized "))
      ↔ sys.hasDimension s = false) ∧
    ((∃ e, sys.getDimension s = .error e) ↔ sys.hasDimension s = false) ∧
    (sys.hasDimension s = true ↔
      ∃ d, (s, d) ∈ sys.m_dimensions ∧ map_find sys.m_dimensions s = some d ∧
        sys.getDimension s = .ok d) := by
  cases hh : sys.hasDimension s with
  | false =>
    have herr := getDimension_of_not_has sys s hh
    refine ⟨⟨fun _ => rfl, fun _ => herr⟩, ⟨fun _ => rfl, fun _ => ⟨_, herr⟩⟩, ?_⟩
    constructor
    · intro h; cases h
    · rintro ⟨d, _, _, hok⟩
      rw [herr] at hok; cases hok
  | true =>
    obtain ⟨d, hfind, hok⟩ := getDimension_of_has sys s hh
    refine ⟨⟨fun h => ?_, fun h => by cases h⟩, ⟨fun h => ?_, fun h => by cases h⟩, ?_⟩
    · rw [hok] at h; cases h
    · obtain ⟨e, he⟩ := h
      rw [hok] at he; cases he
    · exact ⟨fun _ => ⟨d, map_find_some_mem _ _ _ hfind, hfind, hok⟩, fun _ => rfl⟩

/-- C8, on the system with `L = 3.0` and `t = 9.0`: `L` is found, and `l`,
which differs from it in case only, is not. -/
theorem getDimension_iff_hasDimension_witness :
    systemLt.hasDimension "L" = true ∧
    systemLt.getDimension "L" = .ok { m_name := "L", m_SIfactor := 3 } ∧
    systemLt.hasDimension "l" = false ∧
    systemLt.getDimension "l" = .error (.invalid_argument "Dimension: l not recognized ") :=
  ⟨by decide, rfl, by decide,
   (getDimension_iff_hasDimension systemLt "l").1.mpr (by decide)⟩

/-- C9: a freshly constructed `UnitSystem(n)` is named `n`, has no dimension
at all, and `getDimension` fails on it for every symbol with the error that
the symbol is not recognized. -/
theorem fresh_system_is_empty (n : String) :
    (UnitSystem.construct n : UnitSystem R).getName = n ∧
    ∀ s : String,
      (UnitSystem.construct n : UnitSystem R).hasDimension s = false ∧
      (UnitSystem.construct n : UnitSystem R).getDimension s =
        .error (.invalid_argument ("Dimension: " ++ s ++ " not recognized ")) := by
  refine ⟨rfl, fun s => ?_⟩
  have hno : (UnitSystem.construct n : UnitSystem R).hasDimension s = false := rfl
  exact ⟨hno, getDimension_of_not_has _ s hno⟩

theorem addDimension_find (sys : UnitSystem R) (dimension other : String) (SI_factor : R) :
    map_find (sys.addDimension dimension SI_factor).2.m_dimensions other =
      if other = dimension then
        (if Dimension.validName dimension = true then
          some { m_name := dimension, m_SIfactor := SI_factor } else none)
      else map_find sys.m_dimensions other := by
  by_cases h : other = dimension
  · subst h
    cases hv : Dimension.validName other with
    | true => simp [addDimension_find_self sys other SI_factor hv]
    | false =>
      rw [addDimension_invalid sys other SI_factor hv]
      simp [erased_find_self]
  · simp [h, addDimension_find_ne sys dimension other SI_factor h]

theorem addDimension_name (sys : UnitSystem R) (dimension : String) (SI_factor : R) :
    (sys.addDimension dimension SI_factor).2.m_name = sys.m_name := by
  cases hv : Dimension.validName dimension with
  | true => rw [addDimension_valid sys dimension SI_factor hv]; exact erased_name sys dimension
  | false => rw [addDimension_invalid sys dimension SI_factor hv]; exact erased_name sys dimension

theorem addDimension_stmt_valid (sys : UnitSystem R) (dimension : String) (SI_factor : R)
    (h : Dimension.validName dimension = true) :
    sys.addDimension_stmt dimension SI_factor =
      .ok (sys.addDimension dimension SI_factor).2 := by
  simp [UnitSystem.addDimension_stmt, addDimension_valid sys dimension SI_factor h]

theorem getDimension_of_find (sys : UnitSystem R) (symbol : String) (d : Dimension R)
    (h : map_find sys.m_dimensions symbol = some d) : sys.getDimension symbol = .ok d := by
  simp [UnitSystem.getDimension, UnitSystem.hasDimension, map_at, h]

theorem validName_required :
    Dimension.validName "1" = true ∧ Dimension.validName "P" = true ∧
    Dimension.validName "L" = true ∧ Dimension.validName "t" = true ∧
    Dimension.validName "m" = true ∧ Dimension.validName "K" = true := by decide

theorem newMETRIC_eq [One R] (c : ConversionFactors R) :
    UnitSystem.newMETRIC c = .ok (populated "Metric" c) := by
  obtain ⟨h1, hP, hL, ht, hm, hK⟩ := validName_required
  simp only [UnitSystem.newMETRIC, addDimension_stmt_valid, h1, hP, hL, ht, hm, hK, bind,
    Except.bind, pure, Except.pure, populated]

theorem newFIELD_eq [One R] (c : ConversionFactors R) :
    UnitSystem.newFIELD c = .ok (populated "Field" c) := by
  obtain ⟨h1, hP, hL, ht, hm, hK⟩ := validName_required
  simp only [UnitSystem.newFIELD, addDimension_stmt_valid, h1, hP, hL, ht, hm, hK, bind,
    Except.bind, pure, Except.pure, populated]

theorem populated_spec [One R] (name : String) (c : ConversionFactors R) :
    (populated name c).m_name = name ∧
    map_find (populated name c).m_dimensions "1" = some { m_name := "1", m_SIfactor := 1 } ∧
    map_find (populated name c).m_dimensions "P"
      = some { m_name := "P", m_SIfactor := c.Pressure } ∧
    map_find (populated name c).m_dimensions "L"
      = some { m_name := "L", m_SIfactor := c.Length } ∧
    map_find (populated name c).m_dimensions "t"
      = some { m_name := "t", m_SIfactor := c.Time } ∧
    map_find (populated name c).m_dimensions "m"
      = some { m_name := "m", m_SIfactor := c.Mass } ∧
    map_find (populated name c).m_dimensions "K"
      = some { m_name := "K", m_SIfactor := c.Permeability } := by
  obtain ⟨h1, hP, hL, ht, hm, hK⟩ := validName_required
  refine ⟨?_, ?_, ?_, ?_, ?_, ?_, ?_⟩ <;>
    simp [populated, addDimension_find, addDimension_name, h1, hP, hL, ht, hm, hK,
      UnitSystem.construct]

/-- C10: for all values of the constants, `newMETRIC` and `newFIELD` return
(no call of `addDimension` in them throws) a system named "Metric" or "Field"
that has the dimensions `1`, `P`, `L`, `t`, `m`, `K`, with scaling `1.0` for
`1` and the constants Pressure, Length, Time, Mass and Permeability of the
system for the other five. -/
theorem factories_hold_required_dimensions [One R] (Metric Field : ConversionFactors R) :
    (∃ system : UnitSystem R, UnitSystem.newMETRIC Metric = .ok system ∧
      system.getName = "Metric" ∧
      (∀ s ∈ ["1", "P", "L", "t", "m", "K"], system.hasDimension s = true) ∧
      (system.getDimension "1").map Dimension.getSIScaling = .ok 1 ∧
      (system.getDimension "P").map Dimension.getSIScaling = .ok Metric.Pressure ∧
      (system.getDimension "L").map Dimension.getSIScaling = .ok Metric.Length ∧
      (system.getDimension "t").map Dimension.getSIScaling = .ok Metric.Time ∧
      (system.getDimension "m").map Dimension.getSIScaling = .ok Metric.Mass ∧
      (system.getDimension "K").map Dimension.getSIScaling = .ok Metric.Permeability) ∧
    (∃ system : UnitSystem R, UnitSystem.newFIELD Field = .ok system ∧
      system.getName = "Field" ∧
      (∀ s ∈ ["1", "P", "L", "t", "m", "K"], system.hasDimension s = true) ∧
      (system.getDimension "1").map Dimension.getSIScaling = .ok 1 ∧
      (system.getDimension "P").map Dimension.getSIScaling = .ok Field.Pressure ∧
      (system.getDimension "L").map Dimension.getSIScaling = .ok Field.Length ∧
      (system.getDimension "t").map Dimension.getSIScaling = .ok Field.Time ∧
      (system.getDimension "m").map Dimension.getSIScaling = .ok Field.Mass ∧
      (system.getDimension "K").map Dimension.getSIScaling = .ok Field.Permeability) := by
  constructor
  · obtain ⟨hname, h1, hP, hL, ht, hm, hK⟩ := populated_spec "Metric" Metric
    refine ⟨populated "Metric" Metric, newMETRIC_eq Metric, hname, ?_,
      by rw [getDimension_of_find _ _ _ h1]; rfl, by rw [getDimension_of_find _ _ _ hP]; rfl,
      by rw [getDimension_of_find _ _ _ hL]; rfl, by rw [getDimension_of_find _ _ _ ht]; rfl,
      by rw [getDimension_of_find _ _ _ hm]; rfl, by rw [getDimension_of_find _ _ _ hK]; rfl⟩
    intro s hs
    simp only [List.mem_cons, List.mem_singleton, List.not_mem_nil, or_false] at hs
    rcases hs with rfl | rfl | rfl | rfl | rfl | rfl <;>
      simp [UnitSystem.hasDimension, h1, hP, hL, ht, hm, hK]
  · obtain ⟨hname, h1, hP, hL, ht, hm, hK⟩ := populated_spec "Field" Field
    refine ⟨populated "Field" Field, newFIELD_eq Field, hname, ?_,
      by rw [getDimension_of_find _ _ _ h1]; rfl, by rw [getDimension_of_find _ _ _ hP]; rfl,
      by rw [getDimension_of_find _ _ _ hL]; rfl, by rw [getDimension_of_find _ _ _ ht]; rfl,
      by rw [getDimension_of_find _ _ _ hm]; rfl, by rw [getDimension_of_find _ _ _ hK]; rfl⟩
    intro s hs
    simp only [List.mem_cons, List.mem_singleton, List.not_mem_nil, or_false] at hs
    rcases hs with rfl | rfl | rfl | rfl | rfl | rfl <;>
      simp [UnitSystem.hasDimension, h1, hP, hL, ht, hm, hK]

end SystemProperties

/-! ## Lemmas on the errors of `parse` -/

section ErrorLemmas

variable {R : Type}

theorem notRecognized_carries (symbol : String) :
    carries ("Dimension: " ++ symbol ++ " not recognized ") symbol := by
  refine ⟨"Dimension: ".data, " not recognized ".data, ?_⟩
  simp [String.data_append]

theorem getDimension_error (sys : UnitSystem R) (symbol : String) (e : Exception)
    (h : sys.getDimension symbol = .error e) :
    sys.hasDimension symbol = false ∧ e = notRecognized symbol := by
  cases hh : sys.hasDimension symbol with
  | true =>
    obtain ⟨d, _, hd⟩ := getDimension_of_has sys symbol hh
    rw [hd] at h; cases h
  | false =>
    rw [getDimension_of_not_has sys symbol hh] at h
    simp only [Except.error.injEq] at h
    exact ⟨rfl, h.symm⟩

theorem all_or_absent (sys : UnitSystem R) (toks : List String) :
    (∀ t ∈ toks, sys.hasDimension t = true) ∨ (∃ t ∈ toks, sys.hasDimension t = false) := by
  by_cases h : ∃ t ∈ toks, sys.hasDimension t = false
  · exact Or.inr h
  · left
    intro t ht
    cases hh : sys.hasDimension t with
    | true => rfl
    | false => exact absurd ⟨t, ht, hh⟩ h

theorem parseFactor_error [One R] [Mul R] (sys : UnitSystem R) (factor : String)
    (e : Exception) (h : sys.parseFactor factor = .error e) :
    ∃ tok ∈ symbolsOf factor, sys.hasDimension tok = false ∧ e = notRecognized tok := by
  rcases all_or_absent sys (symbolsOf factor) with hall | habs
  · obtain ⟨d, hd⟩ := parseFactor_of_all sys factor hall
    rw [hd] at h; cases h
  · obtain ⟨pre, tok, post, hs, _, htok, herr⟩ := parseFactor_of_absent sys factor habs
    rw [herr] at h
    simp only [Except.error.injEq] at h
    exact ⟨tok, by simp [hs], htok, h.symm⟩

/-- The success of `parse` on an expression with at most one slash all of
whose tokens are present. -/
theorem parse_of_all [One R] [Mul R] [Div R] (sys : UnitSystem R) (expression : String)
    (hdiv : expression.data.count '/' ≤ 1)
    (hall : ∀ t ∈ tokensOf expression, sys.hasDimension t = true) :
    ∃ d, sys.parse expression = .ok d := by
  rcases Nat.lt_or_ge (expression.data.count '/') 1 with h0 | h1
  · have h0 : expression.data.count '/' = 0 := by omega
    rw [tokensOf_no_division expression h0] at hall
    rw [parse_no_division sys expression h0]
    exact parseFactor_of_all sys expression hall
  · have h1 : expression.data.count '/' = 1 := by omega
    obtain ⟨left, right, _, _, _, hsplit, hparse⟩ := parse_one_division sys expression h1
    have htok : tokensOf expression = symbolsOf left ++ symbolsOf right := by
      simp [tokensOf, hsplit]
    rw [htok] at hall
    obtain ⟨dl, hdl⟩ := parseFactor_of_all sys left
      (fun t ht => hall t (List.mem_append_left _ ht))
    obtain ⟨dr, hdr⟩ := parseFactor_of_all sys right
      (fun t ht => hall t (List.mem_append_right _ ht))
    rw [hparse, hdl, hdr]
    exact ⟨_, rfl⟩

/-- The errors of `parse`: the error of the grammar when there are two or
more slashes, and else the error of the first absent token. -/
theorem parse_error [One R] [Mul R] [Div R] (sys : UnitSystem R) (expression : String)
    (e : Exception) (h : sys.parse expression = .error e) :
    (2 ≤ expression.data.count '/' ∧ e = grammarError) ∨
    (expression.data.count '/' ≤ 1 ∧
      ∃ pre tok post, tokensOf expression = pre ++ tok :: post ∧
        (∀ t ∈ pre, sys.hasDimension t = true) ∧ sys.hasDimension tok = false ∧
        e = notRecognized tok) := by
  rcases Nat.lt_or_ge (expression.data.count '/') 2 with hlt | hge
  · right
    have hdiv : expression.data.count '/' ≤ 1 := by omega
    refine ⟨hdiv, ?_⟩
    rcases all_or_absent sys (tokensOf expression) with hall | habs
    · obtain ⟨d, hd⟩ := parse_of_all sys expression hdiv hall
      rw [hd] at h; cases h
    · obtain ⟨pre, tok, post, hs, hpre, htok, herr⟩ :=
        parse_first_absent sys expression hdiv habs
      rw [herr] at h
      simp only [Except.error.injEq] at h
      exact ⟨pre, tok, post, hs, hpre, htok, h.symm⟩
  · left
    rw [parse_many_divisions sys expression hge] at h
    simp only [Except.error.injEq] at h
    exact ⟨hge, h.symm⟩

end ErrorLemmas

/-! ## The properties of the errors -/

section ErrorProperties

variable {R : Type}

theorem c_str_of_no_nul (text : String) (h : Char.ofNat 0 ∉ text.data) :
    c_str text = text := by
  unfold c_str
  have : text.data.takeWhile (fun c => c != Char.ofNat 0) = text.data := by
    rw [List.takeWhile_eq_self_iff]
    intro c hc
    simp only [bne_iff_ne, ne_eq]
    rintro rfl
    exact h hc
  rw [this]

theorem split_chars_mem (p : Char → Bool) (l : List Char) :
    ∀ tok ∈ split_chars p l, ∀ c ∈ tok, c ∈ l := by
  induction l with
  | nil =>
    intro tok htok c hc
    simp only [split_chars, List.mem_singleton] at htok
    subst htok
    exact hc
  | cons x xs ih =>
    intro tok htok c hc
    unfold split_chars at htok
    by_cases hx : p x = true
    · simp only [hx, if_true, List.mem_cons] at htok
      rcases htok with rfl | htok
      · cases hc
      · exact List.mem_cons_of_mem _ (ih tok htok c hc)
    · simp only [hx] at htok
      cases hsplit : split_chars p xs with
      | nil => exact absurd hsplit (split_chars_ne_nil p xs)
      | cons t ts =>
        rw [hsplit] at htok ih
        simp only [Bool.false_eq_true, if_false, List.mem_cons] at htok
        rcases htok with rfl | htok
        · rcases List.mem_cons.mp hc with rfl | hc
          · exact List.mem_cons_self _ _
          · exact List.mem_cons_of_mem _ (ih t (List.mem_cons_self _ _) c hc)
        · exact List.mem_cons_of_mem _ (ih tok (List.mem_cons_of_mem _ htok) c hc)

theorem boost_split_no_nul (input : String) (p : Char → Bool)
    (h : Char.ofNat 0 ∉ input.data) :
    ∀ tok ∈ boost_split input p, Char.ofNat 0 ∉ tok.data := by
  intro tok htok hnul
  unfold boost_split at htok
  obtain ⟨chars, hchars, rfl⟩ := List.mem_map.mp htok
  exact h (split_chars_mem p input.data chars hchars _ hnul)

theorem tokensOf_no_nul (expression : String) (h : Char.ofNat 0 ∉ expression.data) :
    ∀ tok ∈ tokensOf expression, Char.ofNat 0 ∉ tok.data := by
  intro tok htok
  unfold tokensOf at htok
  obtain ⟨part, hpart, htok⟩ := List.mem_flatMap.mp htok
  exact boost_split_no_nul part _ (boost_split_no_nul expression _ h part hpart) tok htok

theorem notRecognized_what (symbol : String) (h : Char.ofNat 0 ∉ symbol.data) :
    (Exception.invalid_argument ("Dimension: " ++ symbol ++ " not recognized ")).what =
      "Dimension: " ++ symbol ++ " not recognized " := by
  apply c_str_of_no_nul
  simp only [String.data_append, List.mem_append, not_or]
  exact ⟨⟨by decide, h⟩, by decide⟩

theorem notRecognized_what_carries (symbol : String) (h : Char.ofNat 0 ∉ symbol.data) :
    carries (Exception.invalid_argument
      ("Dimension: " ++ symbol ++ " not recognized ")).what symbol := by
  rw [notRecognized_what symbol h]
  exact notRecognized_carries symbol

/-- C11, refuted as stated: on the system with `L = 3.0` and `t = 9.0` the
call `parse("L/t/t")` ends with the error of the grammar, whose text `what()`
does not carry the expression and is the very error of `parse("m/K/P")`; and
on the empty system the text `what()` of the error of `getDimension` for the
symbol `a`, NUL, `b` ends before the NUL and does not carry the symbol. -/
theorem grammar_error_omits_expression :
    systemLt.parse "L/t/t" =
      .error (.invalid_argument "Dimension string can only have one division sign /") ∧
    (Exception.invalid_argument "Dimension string can only have one division sign /").what
      = "Dimension string can only have one division sign /" ∧
    ¬ carries (Exception.invalid_argument
        "Dimension string can only have one division sign /").what "L/t/t" ∧
    systemLt.parse "L/t/t" = systemLt.parse "m/K/P" ∧
    emptyMetric.getDimension nulSymbol =
      .error (.invalid_argument ("Dimension: " ++ nulSymbol ++ " not recognized ")) ∧
    (Exception.invalid_argument ("Dimension: " ++ nulSymbol ++ " not recognized ")).what
      = "Dimension: a" ∧
    ¬ carries (Exception.invalid_argument
        ("Dimension: " ++ nulSymbol ++ " not recognized ")).what nulSymbol := by
  have h1 : (Exception.invalid_argument
      "Dimension string can only have one division sign /").what
      = "Dimension string can only have one division sign /" := by decide
  have h2 : (Exception.invalid_argument
      ("Dimension: " ++ nulSymbol ++ " not recognized ")).what = "Dimension: a" := by decide
  refine ⟨rfl, h1, ?_, rfl, rfl, h2, ?_⟩
  · rw [h1]
    unfold carries
    decide
  · rw [h2]
    unfold carries
    decide

/-- C11, as amended: for an expression without a NUL character, an error of
`getDimension`, `parseFactor` or `parse` for an unrecognized symbol is built
from the text `Dimension: <symbol> not recognized ` and its `what()` carries
the symbol, an absent token of the expression; the only other error, that of
`parse` for two or more slashes, has one fixed text. -/
theorem errors_carry_symbol [One R] [Mul R] [Div R] (sys : UnitSystem R)
    (expression : String) (e : Exception) (hnul : Char.ofNat 0 ∉ expression.data) :
    (sys.getDimension expression = .error e →
      sys.hasDimension expression = false ∧
      e = .invalid_argument ("Dimension: " ++ expression ++ " not recognized ") ∧
      e.what = "Dimension: " ++ expression ++ " not recognized " ∧
      carries e.what expression) ∧
    (sys.parseFactor expression = .error e →
      ∃ tok ∈ symbolsOf expression, sys.hasDimension tok = false ∧
        e = .invalid_argument ("Dimension: " ++ tok ++ " not recognized ") ∧
        e.what = "Dimension: " ++ tok ++ " not recognized " ∧
        carries e.what tok) ∧
    (sys.parse expression = .error e →
      (2 ≤ expression.data.count '/' ∧
        e = .invalid_argument "Dimension string can only have one division sign /" ∧
        e.what = "Dimension string can only have one division sign /") ∨
      (expression.data.count '/' ≤ 1 ∧
        ∃ tok ∈ tokensOf expression, sys.hasDimension tok = false ∧
          e = .invalid_argument ("Dimension: " ++ tok ++ " not recognized ") ∧
          e.what = "Dimension: " ++ tok ++ " not recognized " ∧
          carries e.what tok)) := by
  refine ⟨fun h => ?_, fun h => ?_, fun h => ?_⟩
  · obtain ⟨hno, he⟩ := getDimension_error sys expression e h
    subst he
    exact ⟨hno, rfl, notRecognized_what expression hnul,
      notRecognized_what_carries expression hnul⟩
  · obtain ⟨tok, htok, hno, he⟩ := parseFactor_error sys expression e h
    subst he
    have hn := boost_split_no_nul expression _ hnul tok htok
    exact ⟨tok, htok, hno, rfl, notRecognized_what tok hn, notRecognized_what_carries tok hn⟩
  · rcases parse_error sys expression e h with ⟨hge, he⟩ | ⟨hle, pre, tok, post, hs, _, hno, he⟩
    · subst he
      exact Or.inl ⟨hge, rfl, by decide⟩
    · subst he
      have hmem : tok ∈ tokensOf expression := by simp [hs]
      have hn := tokensOf_no_nul expression hnul tok hmem
      exact Or.inr ⟨hle, tok, hmem, hno, rfl, notRecognized_what tok hn,
        notRecognized_what_carries tok hn⟩

/-- C11 as amended, on the system with `L = 3.0` and `t = 9.0`: the text
`what()` of the error of `parse("L*m")` carries the absent symbol `m`. -/
theorem errors_carry_symbol_witness :
    Char.ofNat 0 ∉ "L*m".data ∧
    systemLt.parse "L*m" = .error (.invalid_argument "Dimension: m not recognized ") ∧
    (Exception.invalid_argument "Dimension: m not recognized ").what
      = "Dimension: m not recognized " ∧
    ((2 ≤ "L*m".data.count '/' ∧
        Exception.invalid_argument "Dimension: m not recognized " =
          .invalid_argument "Dimension string can only have one division sign /" ∧
        (Exception.invalid_argument "Dimension: m not recognized ").what =
          "Dimension string can only have one division sign /") ∨
      ("L*m".data.count '/' ≤ 1 ∧
        ∃ tok ∈ tokensOf "L*m", systemLt.hasDimension tok = false ∧
          Exception.invalid_argument "Dimension: m not recognized " =
            .invalid_argument ("Dimension: " ++ tok ++ " not recognized ") ∧
          (Exception.invalid_argument "Dimension: m not recognized ").what =
            "Dimension: " ++ tok ++ " not recognized " ∧
          carries (Exception.invalid_argument "Dimension: m not recognized ").what tok)) :=
  ⟨by decide, rfl, by decide, (errors_carry_symbol systemLt "L*m" _ (by decide)).2.2 rfl⟩

end ErrorProperties

/-! ## The properties of `Dimension` -/

section DimensionProperties

variable {R : Type}

theorem validName_false_of_invalid (name : String)
    (h : name.data = [] ∨ (∃ c ∈ name.data, Dimension.isspace c = true) ∨
      (∃ c rest, name.data = c :: rest ∧ c.isDigit = true ∧ name ≠ "1") ∨
      '*' ∈ name.data ∨ '/' ∈ name.data ∨ (∃ rest, name.data = '.' :: rest)) :
    Dimension.validName name = false := by
  unfold Dimension.validName
  rcases h with h | ⟨c, hc, hs⟩ | ⟨c, rest, hd, hdig, hne⟩ | h | h | ⟨rest, hd⟩
  · simp [h]
  · have : name.data.any Dimension.isspace = true := List.any_eq_true.mpr ⟨c, hc, hs⟩
    simp [this]
  · simp [hd, hdig, hne]
  · have : name.data.any (fun c => c == '*' || c == '/') = true :=
      List.any_eq_true.mpr ⟨'*', h, by simp⟩
    simp [this]
  · have : name.data.any (fun c => c == '*' || c == '/') = true :=
      List.any_eq_true.mpr ⟨'/', h, by simp⟩
    simp [this]
  · simp [hd]

theorem validName_true_of_valid (s : String) (hne : s.data ≠ [])
    (hws : ∀ c ∈ s.data, Dimension.isspace c = false)
    (hdigit : (∃ c rest, s.data = c :: rest ∧ c.isDigit = true) → s = "1")
    (hstar : '*' ∉ s.data) (hslash : '/' ∉ s.data) (hdot : ∀ rest, s.data ≠ '.' :: rest) :
    Dimension.validName s = true := by
  have h1 : s.data.any Dimension.isspace = false := by
    rw [List.any_eq_false]
    intro c hc
    simp [hws c hc]
  have h2 : s.data.any (fun c => c == '*' || c == '/') = false := by
    rw [List.any_eq_false]
    intro c hc
    simp only [Bool.or_eq_true, beq_iff_eq, not_or]
    exact ⟨fun h => hstar (h ▸ hc), fun h => hslash (h ▸ hc)⟩
  unfold Dimension.validName
  rw [h1, h2]
  cases hd : s.data with
  | nil => exact absurd hd hne
  | cons c rest =>
    have hc : c ≠ '.' := fun h => hdot rest (h ▸ hd)
    cases hdig : c.isDigit with
    | false => simp [hdig, hc]
    | true =>
      have := hdigit ⟨c, rest, hd, hdig⟩
      simp [this, hc]

/-- C12: the constructor of `Dimension` rejects, with a `std::invalid_argument`,
every name that is empty, contains whitespace, starts with a digit without
being exactly "1", contains a star or a slash, or starts with a dot; and it
accepts the name "1". -/
theorem construct_rejects_invalid (name : String) (f : R)
    (h : name.data = [] ∨ (∃ c ∈ name.data, Dimension.isspace c = true) ∨
      (∃ c rest, name.data = c :: rest ∧ c.isDigit = true ∧ name ≠ "1") ∨
      '*' ∈ name.data ∨ '/' ∈ name.data ∨ (∃ rest, name.data = '.' :: rest)) :
    Dimension.construct name f =
      .error (.invalid_argument ("Invalid dimension name: " ++ name)) ∧
    Dimension.construct "1" f = .ok { m_name := "1", m_SIfactor := f } := by
  constructor
  · simp [Dimension.construct, validName_false_of_invalid name h]
  · have h1 : Dimension.validName "1" = true := by decide
    simp [Dimension.construct, h1]

/-- C12, on the names of the test: a space, `.LX`, a star, a slash and `2`
are rejected, and `1` is accepted. -/
theorem construct_rejects_invalid_witness :
    (∃ c ∈ " ".data, Dimension.isspace c = true) ∧
    (Dimension.construct " " (1 : ℚ)).toOption = none ∧
    (Dimension.construct ".LX" (1 : ℚ)).toOption = none ∧
    (Dimension.construct "*" (1 : ℚ)).toOption = none ∧
    (Dimension.construct "/" (1 : ℚ)).toOption = none ∧
    (Dimension.construct "2" (1 : ℚ)).toOption = none ∧
    Dimension.construct " " (1 : ℚ) = .error (.invalid_argument "Invalid dimension name:  ") ∧
    Dimension.construct "1" (1 : ℚ) = .ok { m_name := "1", m_SIfactor := 1 } :=
  have hsp : ∃ c ∈ " ".data, Dimension.isspace c = true := ⟨' ', by decide, by decide⟩
  ⟨hsp, rfl, rfl, rfl, rfl, rfl,
   (construct_rejects_invalid " " (1 : ℚ) (Or.inr (Or.inl hsp))).1,
   (construct_rejects_invalid " " (1 : ℚ) (Or.inr (Or.inl hsp))).2⟩

/-- C13: the constructor of `Dimension` accepts every valid name `s` and the
result has the name `s` and the scaling `f`; and `makeComposite(n, f)` gives,
for every string `n`, the dimension with the name `n` and the scaling `f`. -/
theorem construct_accepts_valid (s : String) (f : R) (hne : s.data ≠ [])
    (hws : ∀ c ∈ s.data, Dimension.isspace c = false)
    (hdigit : (∃ c rest, s.data = c :: rest ∧ c.isDigit = true) → s = "1")
    (hstar : '*' ∉ s.data) (hslash : '/' ∉ s.data) (hdot : ∀ rest, s.data ≠ '.' :: rest) :
    (∃ d, Dimension.construct s f = .ok d ∧ d.getName = s ∧ d.getSIScaling = f) ∧
    ∀ (n : String) (g : R), (Dimension.makeComposite n g).getName = n ∧
      (Dimension.makeComposite n g).getSIScaling = g := by
  have hv := validName_true_of_valid s hne hws hdigit hstar hslash hdot
  refine ⟨⟨{ m_name := s, m_SIfactor := f }, ?_, rfl, rfl⟩, fun n g => ⟨rfl, rfl⟩⟩
  simp [Dimension.construct, hv]

/-- C13, on the values of the tests: `Dimension("L", 1)` has the name `L` and
the scaling `1`, and `makeComposite("L*L*L/t", 100)` has the name `L*L*L/t`
and the scaling `100`. -/
theorem construct_accepts_valid_witness :
    (∃ d, Dimension.construct "L" (1 : ℚ) = .ok d ∧ d.getName = "L" ∧ d.getSIScaling = 1) ∧
    (Dimension.makeComposite "L*L*L/t" (100 : ℚ)).getName = "L*L*L/t" ∧
    (Dimension.makeComposite "L*L*L/t" (100 : ℚ)).getSIScaling = 100 :=
  have h := construct_accepts_valid "L" (1 : ℚ) (by decide) (by decide)
    (by rintro ⟨c, rest, hd, hdig⟩
        have hc : c = 'L' := by
          have := congrArg List.head? hd
          simpa using this.symm
        subst hc
        exact absurd hdig (by decide))
    (by decide) (by decide)
    (by intro rest hd
        have := congrArg List.head? hd
        simp at this)
  ⟨h.1, (h.2 "L*L*L/t" 100).1, (h.2 "L*L*L/t" 100).2⟩

end DimensionProperties

/-! ## The properties of the registry -/

section RegistryProperties

variable {R : Type}

theorem map_toUpper_eq_iff (a b : List Char) :
    List.Forall₂ (fun x y => x.toUpper = y.toUpper) a b ↔
      a.map Char.toUpper = b.map Char.toUpper := by
  induction a generalizing b with
  | nil =>
    cases b with
    | nil => simp
    | cons y ys => simp
  | cons x xs ih =>
    cases b with
    | nil => simp
    | cons y ys => simp [ih]

theorem normalize_eq_iff (a b : String) :
    UnitSystemMap.normalize a = UnitSystemMap.normalize b ↔ sameUpToCase a b := by
  unfold UnitSystemMap.normalize sameUpToCase
  rw [map_toUpper_eq_iff]
  constructor
  · intro h
    exact congrArg String.data h
  · intro h
    rw [h]

theorem lookup_filter_ne (m : List (String × UnitSystem R)) (k key : String) (h : k ≠ key) :
    UnitSystemMap.lookup (m.filter (fun entry => entry.1 ≠ k)) key =
      UnitSystemMap.lookup m key := by
  induction m with
  | nil => rfl
  | cons entry rest ih =>
    obtain ⟨k', v⟩ := entry
    by_cases hk : k' = k
    · have hne : k' ≠ key := fun hk' => h (hk.symm.trans hk')
      rw [List.filter_cons_of_neg (by simpa using hk), ih]
      simp [UnitSystemMap.lookup, hne]
    · rw [List.filter_cons_of_pos (by simpa using hk)]
      simp only [UnitSystemMap.lookup, ih]

theorem lookup_addSystem (reg : UnitSystemMap R) (system : UnitSystem R) (key : String) :
    UnitSystemMap.lookup (reg.addSystem system).m_systemMap key =
      if UnitSystemMap.normalize system.getName = key then some system
      else UnitSystemMap.lookup reg.m_systemMap key := by
  by_cases h : UnitSystemMap.normalize system.getName = key
  · simp [UnitSystemMap.addSystem, UnitSystemMap.lookup, h]
  · simp only [UnitSystemMap.addSystem, UnitSystemMap.lookup, h, if_false]
    exact lookup_filter_ne _ _ _ h

theorem lookup_foldl_addSystem (reg : UnitSystemMap R) (post : List (UnitSystem R))
    (key : String) (h : ∀ s ∈ post, UnitSystemMap.normalize s.getName ≠ key) :
    UnitSystemMap.lookup (post.foldl UnitSystemMap.addSystem reg).m_systemMap key =
      UnitSystemMap.lookup reg.m_systemMap key := by
  induction post generalizing reg with
  | nil => rfl
  | cons p ps ih =>
    rw [List.foldl_cons, ih _ (fun s hs => h s (List.mem_cons_of_mem _ hs)), lookup_addSystem]
    simp [h p (List.mem_cons_self _ _)]

/-- C14, refuted as stated: after the registration of the empty system named
"Metric" and then of the empty system named "METRIC", the query `Metric`,
which is the very name of the first system, finds the second system and not
the first: the later registration has overwritten the entry. -/
theorem later_registration_overwrites :
    emptyMetric.getName = "Metric" ∧ emptyUpper.getName = "METRIC" ∧
    sameUpToCase "Metric" emptyMetric.getName ∧
    clashRegistry.hasSystem "Metric" = true ∧
    clashRegistry.getSystem "Metric" = .ok emptyUpper ∧
    clashRegistry.getSystem "Metric" ≠ .ok emptyMetric := by
  have hget : clashRegistry.getSystem "Metric" = .ok emptyUpper := rfl
  refine ⟨rfl, rfl, (normalize_eq_iff _ _).mp rfl, rfl, hget, ?_⟩
  rw [hget]
  intro h
  have hname := congrArg (fun r => r.toOption.map UnitSystem.getName) h
  revert hname
  decide

/-- C14, as amended: the lookup in the registry ignores case.  After
`addSystem(system)` and further registrations of systems none of whose names
equals the query up to case, a query equal up to case to the name of the
system finds the system, whatever the registry held before; and in a
registry built from the empty one a query that matches no registered name up
to case finds nothing, and `getSystem` fails with a `std::invalid_argument`. -/
theorem registry_lookup_ignores_case :
    (∀ (reg : UnitSystemMap R) (system : UnitSystem R) (post : List (UnitSystem R))
        (q : String), sameUpToCase q system.getName →
        (∀ s ∈ post, ¬ sameUpToCase q s.getName) →
        (post.foldl UnitSystemMap.addSystem (reg.addSystem system)).hasSystem q = true ∧
        (post.foldl UnitSystemMap.addSystem (reg.addSystem system)).getSystem q
          = .ok system) ∧
    (∀ (systems : List (UnitSystem R)) (q : String),
        (∀ s ∈ systems, ¬ sameUpToCase q s.getName) →
        (registryOf systems).hasSystem q = false ∧
        (registryOf systems).getSystem q =
          .error (.invalid_argument ("UnitSystem: " ++ q ++ " not recognized "))) := by
  constructor
  · intro reg system post q hq hpost
    have hkey : UnitSystemMap.normalize system.getName = UnitSystemMap.normalize q :=
      ((normalize_eq_iff q system.getName).mpr hq).symm
    have hne : ∀ s ∈ post, UnitSystemMap.normalize s.getName ≠ UnitSystemMap.normalize q :=
      fun s hs h => hpost s hs ((normalize_eq_iff q s.getName).mp h.symm)
    have hl := lookup_foldl_addSystem (reg.addSystem system) post _ hne
    rw [lookup_addSystem, if_pos hkey] at hl
    simp [UnitSystemMap.hasSystem, UnitSystemMap.getSystem, hl]
  · intro systems q hnone
    have hne : ∀ s ∈ systems,
        UnitSystemMap.normalize s.getName ≠ UnitSystemMap.normalize q :=
      fun s hs h => hnone s hs ((normalize_eq_iff q s.getName).mp h.symm)
    have hl := lookup_foldl_addSystem UnitSystemMap.empty systems _ hne
    have hempty : UnitSystemMap.lookup (UnitSystemMap.empty : UnitSystemMap R).m_systemMap
        (UnitSystemMap.normalize q) = none := rfl
    rw [hempty] at hl
    simp [registryOf, UnitSystemMap.hasSystem, UnitSystemMap.getSystem, hl]

theorem sample_names :
    (populated "Metric" sampleFactors).getName = "Metric" ∧
    (populated "Field" sampleFactors).getName = "Field" :=
  ⟨(populated_spec "Metric" sampleFactors).1, (populated_spec "Field" sampleFactors).1⟩

theorem sameUpToCase_of_normalize (q name : String) (system : UnitSystem R)
    (hname : system.getName = name)
    (h : UnitSystemMap.normalize q = UnitSystemMap.normalize name) :
    sameUpToCase q system.getName := by
  rw [hname]
  exact (normalize_eq_iff q name).mp h

theorem not_sameUpToCase_of_normalize (q name : String) (system : UnitSystem R)
    (hname : system.getName = name)
    (h : UnitSystemMap.normalize q ≠ UnitSystemMap.normalize name) :
    ¬ sameUpToCase q system.getName := by
  rw [hname]
  exact fun hs => h ((normalize_eq_iff q name).mpr hs)

/-- C14 as amended, on the registry of the test, with the systems named "Metric" and
"Field": the queries `METRIC`, `meTRIC`, `meTRic` and `Field` find their
system, and `NoNotThisOne` finds none. -/
theorem registry_lookup_ignores_case_witness :
    sampleRegistry.hasSystem "METRIC" = true ∧
    sampleRegistry.hasSystem "meTRIC" = true ∧
    sampleRegistry.hasSystem "meTRic" = true ∧
    sampleRegistry.hasSystem "Field" = true ∧
    sampleRegistry.getSystem "meTRIC" = .ok (populated "Metric" sampleFactors) ∧
    sampleRegistry.getSystem "Field" = .ok (populated "Field" sampleFactors) ∧
    sampleRegistry.hasSystem "NoNotThisOne" = false ∧
    sampleRegistry.getSystem "NoNotThisOne" =
      .error (.invalid_argument "UnitSystem: NoNotThisOne not recognized ") := by
  obtain ⟨hm, hf⟩ := sample_names
  have hfound := (registry_lookup_ignores_case (R := ℚ)).1
  have hmetric : ∀ q : String,
      UnitSystemMap.normalize q = UnitSystemMap.normalize "Metric" →
      sampleRegistry.hasSystem q = true ∧
      sampleRegistry.getSystem q = .ok (populated "Metric" sampleFactors) := by
    intro q hq
    have hne : UnitSystemMap.normalize q ≠ UnitSystemMap.normalize "Field" := by
      rw [hq]; decide
    exact hfound UnitSystemMap.empty (populated "Metric" sampleFactors)
      [populated "Field" sampleFactors] q (sameUpToCase_of_normalize q "Metric" _ hm hq)
      (fun s hs => by
        rw [List.mem_singleton] at hs
        subst hs
        exact not_sameUpToCase_of_normalize q "Field" _ hf hne)
  have hfield := hfound (UnitSystemMap.empty.addSystem (populated "Metric" sampleFactors))
    (populated "Field" sampleFactors) [] "Field"
    (sameUpToCase_of_normalize "Field" "Field" _ hf rfl) (fun s hs => by cases hs)
  have hnone := (registry_lookup_ignores_case (R := ℚ)).2
    [populated "Metric" sampleFactors, populated "Field" sampleFactors] "NoNotThisOne"
    (fun s hs => by
      rcases List.mem_cons.mp hs with rfl | hs
      · exact not_sameUpToCase_of_normalize _ "Metric" _ hm (by decide)
      · rw [List.mem_singleton] at hs
        subst hs
        exact not_sameUpToCase_of_normalize _ "Field" _ hf (by decide))
  exact ⟨(hmetric "METRIC" (by decide)).1, (hmetric "meTRIC" (by decide)).1,
    (hmetric "meTRic" (by decide)).1, hfield.1, (hmetric "meTRIC" (by decide)).2, hfield.2,
    hnone.1, hnone.2⟩

end RegistryProperties

/-! ## Further properties of `parse` -/

section ParseCharacterisation

variable {R : Type}

/-- C15: an expression with exactly one slash is split on the slash into
exactly two parts, which give the expression back when joined by a slash; so
the subscripts `parts[0]` and `parts[1]` of `parse` are in bounds, and
`parse` does not end in the subscript past the end. -/
theorem split_single_division [One R] [Mul R] [Div R] (sys : UnitSystem R)
    (expression : String) (hdiv : expression.data.count '/' = 1) :
    ∃ left right : String,
      boost_split expression (is_any_of "/") = [left, right] ∧
      left ++ "/" ++ right = expression ∧
      vector_subscript (boost_split expression (is_any_of "/")) 0 = .ok left ∧
      vector_subscript (boost_split expression (is_any_of "/")) 1 = .ok right ∧
      sys.parse expression ≠ .error .vector_subscript_out_of_bounds := by
  obtain ⟨left, right, he, _, _, hsplit, _⟩ := parse_one_division sys expression hdiv
  rw [← is_any_of_slash] at hsplit
  refine ⟨left, right, hsplit, he.symm, by rw [hsplit]; rfl, by rw [hsplit]; rfl, ?_⟩
  intro h
  rcases parse_error sys expression _ h with ⟨_, he⟩ | ⟨_, _, _, _, _, _, _, he⟩
  · cases he
  · cases he

/-- C15, on two expressions: `L*L*L/t` is split into `L*L*L` and `t`, and
the single slash into two empty parts. -/
theorem split_single_division_witness :
    "L*L*L/t".data.count '/' = 1 ∧
    boost_split "L*L*L/t" (is_any_of "/") = ["L*L*L", "t"] ∧
    boost_split "/" (is_any_of "/") = ["", ""] ∧
    ∃ left right : String,
      boost_split "L*L*L/t" (is_any_of "/") = [left, right] ∧
      left ++ "/" ++ right = "L*L*L/t" ∧
      vector_subscript (boost_split "L*L*L/t" (is_any_of "/")) 0 = .ok left ∧
      vector_subscript (boost_split "L*L*L/t" (is_any_of "/")) 1 = .ok right ∧
      systemLt.parse "L*L*L/t" ≠ .error .vector_subscript_out_of_bounds :=
  ⟨by decide, by decide, by decide, split_single_division systemLt "L*L*L/t" (by decide)⟩

theorem first_absent_unique (p : String → Bool) (pre pre' post post' : List String)
    (tok tok' : String) (h : pre ++ tok :: post = pre' ++ tok' :: post')
    (hpre : ∀ t ∈ pre, p t = true) (htok : p tok = false)
    (hpre' : ∀ t ∈ pre', p t = true) (htok' : p tok' = false) : tok = tok' := by
  induction pre generalizing pre' with
  | nil =>
    cases pre' with
    | nil => simpa using (List.cons.inj h).1
    | cons x xs =>
      have hx : tok = x := (List.cons.inj h).1
      have := hpre' x (List.mem_cons_self _ _)
      rw [← hx, htok] at this
      cases this
  | cons y ys ih =>
    cases pre' with
    | nil =>
      have hy : y = tok' := (List.cons.inj h).1
      have := hpre y (List.mem_cons_self _ _)
      rw [hy, htok'] at this
      cases this
    | cons x xs =>
      exact ih xs (List.cons.inj h).2 (fun t ht => hpre t (List.mem_cons_of_mem _ ht))
        (fun t ht => hpre' t (List.mem_cons_of_mem _ ht))

/-- The errors of `parse` are the same in two systems with the same symbols,
whatever their scalings and the type of their scalings. -/
theorem parse_error_transfer {S : Type} [One R] [Mul R] [Div R] [One S] [Mul S] [Div S]
    (sys : UnitSystem R) (other : UnitSystem S)
    (hsame : ∀ s, other.hasDimension s = sys.hasDimension s)
    (expression : String) (e : Exception) (h : sys.parse expression = .error e) :
    other.parse expression = .error e := by
  rcases parse_error sys expression e h with ⟨hge, he⟩ | ⟨hle, pre, tok, post, hs, hpre, hno, he⟩
  · rw [he]
    exact parse_many_divisions other expression hge
  · obtain ⟨pre', tok', post', hs', hpre', hno', herr⟩ :=
      parse_first_absent other expression hle ⟨tok, by simp [hs], by rw [hsame, hno]⟩
    have heq : tok = tok' :=
      first_absent_unique (fun t => sys.hasDimension t) pre pre' post post' tok tok'
        (hs.symm.trans hs') hpre hno (fun t ht => (hsame t).symm.trans (hpre' t ht))
        ((hsame tok').symm.trans hno')
    rw [herr, he, heq]

/-- C16: `parse` succeeds exactly when the expression has at most one slash
and each of its tokens is a dimension of the system; and in two systems with
the same symbols, whatever their scalings, `parse` ends with the same
errors. -/
theorem parse_succeeds_iff [One R] [Mul R] [Div R] (sys : UnitSystem R)
    (expression : String) :
    ((∃ d, sys.parse expression = .ok d) ↔
      (expression.data.count '/' ≤ 1 ∧
        ∀ tok ∈ tokensOf expression, sys.hasDimension tok = true)) ∧
    (∀ (S : Type) [One S] [Mul S] [Div S] (other : UnitSystem S),
      (∀ s, other.hasDimension s = sys.hasDimension s) →
      ∀ e, other.parse expression = .error e ↔ sys.parse expression = .error e) := by
  constructor
  · constructor
    · rintro ⟨d, hd⟩
      rcases Nat.lt_or_ge (expression.data.count '/') 2 with hlt | hge
      · have hdiv : expression.data.count '/' ≤ 1 := by omega
        refine ⟨hdiv, ?_⟩
        rcases all_or_absent sys (tokensOf expression) with hall | habs
        · exact hall
        · obtain ⟨_, _, _, _, _, _, herr⟩ := parse_first_absent sys expression hdiv habs
          rw [herr] at hd; cases hd
      · rw [parse_many_divisions sys expression hge] at hd; cases hd
    · rintro ⟨hdiv, hall⟩
      exact parse_of_all sys expression hdiv hall
  · intro S _ _ _ other hsame e
    exact ⟨parse_error_transfer other sys (fun s => (hsame s).symm) expression e,
      parse_error_transfer sys other hsame expression e⟩

/-- C16, on the system with `L = 3.0` and the time of scaling zero: the
expression `L/t` has one slash and known tokens, and `parse` succeeds on it
although the scaling of the divisor is zero. -/
theorem parse_succeeds_iff_witness :
    systemZero.getDimension "t" = .ok { m_name := "t", m_SIfactor := 0 } ∧
    ("L/t".data.count '/' ≤ 1 ∧ ∀ tok ∈ tokensOf "L/t", systemZero.hasDimension tok = true) ∧
    ∃ d, systemZero.parse "L/t" = .ok d :=
  ⟨rfl, ⟨by decide, by decide⟩,
   (parse_succeeds_iff systemZero "L/t").1.mpr ⟨by decide, by decide⟩⟩

/-- C20: on an expression with at most one slash an error of `parse` is the
error of `getDimension` for the first token, in reading order, that is not a
dimension of the system, and there is such an error when some token is
absent; on an expression with two or more slashes `parse` ends with the
error of the grammar, whether its tokens are present or not. -/
theorem parse_error_precedence [One R] [Mul R] [Div R] (sys : UnitSystem R)
    (expression : String) :
    (expression.data.count '/' ≤ 1 →
      (∀ e, sys.parse expression = .error e →
        ∃ pre tok post, tokensOf expression = pre ++ tok :: post ∧
          (∀ t ∈ pre, sys.hasDimension t = true) ∧ sys.hasDimension tok = false ∧
          e = .invalid_argument ("Dimension: " ++ tok ++ " not recognized ")) ∧
      ((∃ t ∈ tokensOf expression, sys.hasDimension t = false) →
        ∃ e, sys.parse expression = .error e)) ∧
    (2 ≤ expression.data.count '/' →
      sys.parse expression =
        .error (.invalid_argument "Dimension string can only have one division sign /")) := by
  refine ⟨fun hdiv => ⟨fun e he => ?_, fun habs => ?_⟩, fun hge => ?_⟩
  · rcases parse_error sys expression e he with ⟨hge, _⟩ | ⟨_, hfirst⟩
    · omega
    · exact hfirst
  · obtain ⟨_, tok, _, _, _, _, herr⟩ := parse_first_absent sys expression hdiv habs
    exact ⟨_, herr⟩
  · exact parse_many_divisions sys expression hge

/-- C20, on the system with `L = 3.0` and `t = 9.0`: of the absent tokens
`a` and `b` the error names the one that is read first, in the dividend
before the divisor, and with two slashes the error is that of the grammar
although `a` and `b` are absent. -/
theorem parse_error_precedence_witness :
    "L*a*b/t".data.count '/' ≤ 1 ∧ 2 ≤ "a/b/t".data.count '/' ∧
    systemLt.parse "L*a*b/t" = .error (.invalid_argument "Dimension: a not recognized ") ∧
    systemLt.parse "b/L*a" = .error (.invalid_argument "Dimension: b not recognized ") ∧
    systemLt.parse "L/b*a" = .error (.invalid_argument "Dimension: b not recognized ") ∧
    (∃ pre tok post, tokensOf "L*a*b/t" = pre ++ tok :: post ∧
      (∀ t ∈ pre, systemLt.hasDimension t = true) ∧ systemLt.hasDimension tok = false ∧
      Exception.invalid_argument "Dimension: a not recognized " =
        .invalid_argument ("Dimension: " ++ tok ++ " not recognized ")) ∧
    systemLt.parse "a/b/t" =
      .error (.invalid_argument "Dimension string can only have one division sign /") :=
  ⟨by decide, by decide, rfl, rfl, rfl,
   ((parse_error_precedence systemLt "L*a*b/t").1 (by decide)).1 _ rfl,
   (parse_error_precedence systemLt "a/b/t").2 (by decide)⟩

end ParseCharacterisation

/-! ## Further properties of `addDimension` -/

section AddProperties

variable {R : Type}

theorem reachable_add_valid (sys : UnitSystem R) (hr : Reachable sys) (s : String) (f : R)
    (hv : Dimension.validName s = true) : Reachable (sys.addDimension s f).2 :=
  Reachable.add sys s f hr (by rw [addDimension_valid sys s f hv])

theorem reachable_populated [One R] (name : String) (c : ConversionFactors R) :
    Reachable (populated name c) := by
  obtain ⟨h1, hP, hL, ht, hm, hK⟩ := validName_required
  unfold populated
  exact reachable_add_valid _ (reachable_add_valid _ (reachable_add_valid _
    (reachable_add_valid _ (reachable_add_valid _ (reachable_add_valid _
      (Reachable.fresh name) "1" 1 h1) "P" _ hP) "L" _ hL) "t" _ ht) "m" _ hm) "K" _ hK

theorem getDimension_congr (sys other : UnitSystem R) (s : String)
    (h : map_find other.m_dimensions s = map_find sys.m_dimensions s) :
    other.getDimension s = sys.getDimension s := by
  simp [UnitSystem.getDimension, UnitSystem.hasDimension, map_at, h]

theorem reachable_getDimension (sys : UnitSystem R) (hr : Reachable sys) (s : String)
    (d : Dimension R) (h : sys.getDimension s = .ok d) :
    Dimension.validName s = true ∧ d.getName = s := by
  obtain ⟨d', hfind, hd'⟩ := getDimension_of_has sys s (getDimension_ok_has sys s d h)
  rw [hd'] at h
  simp only [Except.ok.injEq] at h
  subst h
  exact reachable_entries sys hr s d' hfind

/-- C17: in a system built by successful calls of `addDimension`, the call
`addDimension(s, f)` with an invalid name `s` ends with the
`std::invalid_argument` of the constructor of `Dimension` and leaves the
system as it was. -/
theorem rejected_add_changes_nothing (sys : UnitSystem R) (hr : Reachable sys)
    (s : String) (f : R) (hinvalid : Dimension.validName s = false) :
    sys.addDimension s f =
      (.error (.invalid_argument ("Invalid dimension name: " ++ s)), sys) := by
  have hno : sys.hasDimension s = false := by
    cases hh : sys.hasDimension s with
    | false => rfl
    | true =>
      have := reachable_has_valid sys hr s hh
      rw [hinvalid] at this; cases this
  rw [addDimension_invalid sys s f hinvalid]
  simp [erased, hno]

/-- C17, on the system with `L = 3.0` and `t = 9.0`: adding the name `2`, or
a name with a blank, fails and leaves the system as it was. -/
theorem rejected_add_changes_nothing_witness :
    Reachable systemLt ∧ Dimension.validName "2" = false ∧
    systemLt.addDimension "2" 1 =
      (.error (.invalid_argument "Invalid dimension name: 2"), systemLt) ∧
    (systemLt.addDimension "L t" 1).2 = systemLt :=
  ⟨reachable_systemLt, by decide,
   rejected_add_changes_nothing systemLt reachable_systemLt "2" 1 (by decide),
   by rw [rejected_add_changes_nothing systemLt reachable_systemLt "L t" 1 (by decide)]⟩

/-- C18: in a system built by successful calls of `addDimension` every
stored symbol is a valid name and the dimension stored under it has the
symbol as its name; the systems of `newMETRIC` and `newFIELD` are such
systems. -/
theorem stored_symbol_is_name [One R] :
    (∀ sys : UnitSystem R, Reachable sys → ∀ s : String,
      (sys.hasDimension s = true →
        Dimension.validName s = true ∧
        ∃ d, sys.getDimension s = .ok d ∧ d.getName = s) ∧
      (∀ d, sys.getDimension s = .ok d → d.getName = s)) ∧
    (∀ Metric : ConversionFactors R, ∃ system : UnitSystem R,
      UnitSystem.newMETRIC Metric = .ok system ∧ Reachable system ∧
      ∀ s d, system.getDimension s = .ok d → Dimension.validName s = true ∧ d.getName = s) ∧
    (∀ Field : ConversionFactors R, ∃ system : UnitSystem R,
      UnitSystem.newFIELD Field = .ok system ∧ Reachable system ∧
      ∀ s d, system.getDimension s = .ok d → Dimension.validName s = true ∧ d.getName = s) := by
  refine ⟨fun sys hr s => ⟨fun hh => ?_, fun d hd => ?_⟩, fun c => ?_, fun c => ?_⟩
  · obtain ⟨d, _, hd⟩ := getDimension_of_has sys s hh
    obtain ⟨hv, hn⟩ := reachable_getDimension sys hr s d hd
    exact ⟨hv, d, hd, hn⟩
  · exact (reachable_getDimension sys hr s d hd).2
  · exact ⟨populated "Metric" c, newMETRIC_eq c, reachable_populated "Metric" c,
      fun s d hd => reachable_getDimension _ (reachable_populated "Metric" c) s d hd⟩
  · exact ⟨populated "Field" c, newFIELD_eq c, reachable_populated "Field" c,
      fun s d hd => reachable_getDimension _ (reachable_populated "Field" c) s d hd⟩

/-- C18, on the system with `L = 3.0` and `t = 9.0`: the dimension found
under `L` is named `L`. -/
theorem stored_symbol_is_name_witness :
    Reachable systemLt ∧ systemLt.hasDimension "L" = true ∧
    Dimension.validName "L" = true ∧
    ∃ d, systemLt.getDimension "L" = .ok d ∧ d.getName = "L" :=
  ⟨reachable_systemLt, by decide,
   ((stored_symbol_is_name.1 systemLt reachable_systemLt "L").1 (by decide)).1,
   ((stored_symbol_is_name.1 systemLt reachable_systemLt "L").1 (by decide)).2⟩

/-- C19: a successful `addDimension(s, f)` leaves the name of the system,
and for every symbol other than `s` the answers of `hasDimension` and of
`getDimension`, as they were. -/
theorem addDimension_frame (sys : UnitSystem R) (s other : String) (f : R)
    (hvalid : Dimension.validName s = true) (hne : other ≠ s) :
    (sys.addDimension s f).1 = .ok () ∧
    (sys.addDimension s f).2.getName = sys.getName ∧
    (sys.addDimension s f).2.hasDimension other = sys.hasDimension other ∧
    (sys.addDimension s f).2.getDimension other = sys.getDimension other := by
  have hfind := addDimension_find_ne sys s other f hne
  refine ⟨by rw [addDimension_valid sys s f hvalid], addDimension_name sys s f, ?_,
    getDimension_congr sys _ other hfind⟩
  simp [UnitSystem.hasDimension, hfind]

/-- C19, on the system with `L = 3.0` and `t = 9.0`: adding `l` leaves the
name of the system and the dimension `L`, which differs from `l` in case
only, as they were. -/
theorem addDimension_frame_witness :
    Dimension.validName "l" = true ∧ "L" ≠ "l" ∧
    (systemLt.addDimension "l" 5).1 = .ok () ∧
    (systemLt.addDimension "l" 5).2.getName = "Metric" ∧
    (systemLt.addDimension "l" 5).2.hasDimension "L" = true ∧
    (systemLt.addDimension "l" 5).2.getDimension "L" = .ok { m_name := "L", m_SIfactor := 3 } ∧
    (systemLt.addDimension "l" 5).2.getDimension "L" = systemLt.getDimension "L" :=
  have h := addDimension_frame systemLt "l" "L" 5 (by decide) (by decide)
  ⟨by decide, by decide, h.1, h.2.1, by decide, rfl, h.2.2.2⟩

end AddProperties

end Opm
